import Mathlib

/-!
Verification development for the wjdr-cdk-go redemption backend.

The definitions below are shallow embeddings of the Go sources:
* `internal/client/game_client.go` — response classification of the three
  game-API calls (`Login`, `GetCaptcha`, `RedeemCode`);
* the automation service (`RedeemSingle`, `RedeemBatch`,
  `tryOnceNoCooldown`, the `accountRedeemGate`);
* `internal/worker/job_queue.go` — `RetryJob`;
* `internal/client/ocr_manager.go` — `Reload` / `pick`;
* the redeem-log repository — `ReplaceRedeemLog`.

Go `int` values are modelled as `Int` (with explicit two's-complement
wrapping where 64-bit overflow matters), time instants as `Nat`
(seconds, except the job queue where nanoseconds are used), and the
external world (HTTP responses, OCR answers, per-attempt outcomes) as
explicit inputs or oracle functions.
-/

/-! ### Game-API response classification (`game_client.go`) -/

/-- Payload data of a game-API response (`LoginData` / `CaptchaData` /
`RedeemData` fields that the embedded logic ever reads). -/
structure GameData where
  img : String
  reward : String
  message : String
deriving DecidableEq, Repr

/-- Default (Go zero value) payload. -/
def GameData.zero : GameData := ⟨"", "", ""⟩

/-- The `err_code` field of a game-API response may be JSON null, a number
or a string (`GameResponse.ErrCode interface\x7b\x7d`). -/
inductive ErrCodeVal
  | null
  | num (n : Int)
  | str (s : String)
deriving DecidableEq, Repr

/-- `parseErrCode` (game_client.go:83-113): null and empty string map to 0,
numbers are taken as-is, strings are parsed with `strconv.Atoi` and fall
back to 0 on parse failure. -/
def parseErrCode : ErrCodeVal → Int
  | .null => 0
  | .num n => n
  | .str s => if s = "" then 0 else match s.toInt? with
    | some n => n
    | none => 0

/-- `getErrorMessage` (game_client.go:116-138): the fixed error-code map;
unknown codes render as `未知错误 (code)`. -/
def getErrorMessage (errCode : Int) : String :=
  if errCode = 20000 then "兑换成功"
  else if errCode = 40005 then "超出领取次数"
  else if errCode = 40006 then "不满足活动领取条件"
  else if errCode = 40007 then "兑换码已过期"
  else if errCode = 40008 then "已经兑换过此礼品码"
  else if errCode = 40011 then "已兑换过同类型兑换码"
  else if errCode = 40009 then "登录状态失效"
  else if errCode = 40014 then "兑换码不存在"
  else if errCode = 40102 then "验证码过期"
  else if errCode = 40100 then "验证码获取过多"
  else if errCode = 40101 then "服务器繁忙"
  else if errCode = 40103 then "验证码错误"
  else if errCode = 40001 then "参数错误"
  else if errCode = 40002 then "签名错误"
  else "未知错误 (" ++ toString errCode ++ ")"

/-- `isFatalError` (game_client.go:157-159): gift code expired (40007) or
gift code does not exist (40014). -/
def isFatalError (errCode : Int) : Bool :=
  errCode == 40007 || errCode == 40014

/-- `isSuccess` (game_client.go:162-164). -/
def isSuccess (errCode : Int) : Bool :=
  errCode == 20000

/-- A decoded game-API response body (`GameResponse`). `msg` is modelled
after rendering through `messageToString`, which the claims never inspect. -/
structure GameResponse where
  code : Int
  errCode : ErrCodeVal
  msg : String
  data : GameData
deriving DecidableEq, Repr

/-- What reading the HTTP response body yielded. -/
inductive BodyRead
  | readError
  | undecodable
  | decoded (resp : GameResponse)
deriving DecidableEq, Repr

/-- Outcome of one HTTP round-trip against the game API: either the
transport itself failed (`client.Do` returned an error) or a status code
and a body were received. -/
inductive HttpOutcome
  | netError (msg : String)
  | resp (status : Int) (body : BodyRead)
deriving DecidableEq, Repr

/-- `GameResult` (game_client.go:59-69), restricted to the fields the
embedded logic reads. -/
structure GameResult where
  success : Bool
  data : GameData
  error : String
  errCode : Int
  isFatal : Bool
deriving DecidableEq, Repr

/-- The `服务器繁忙` result produced by the body-level failure branches of
all three calls (read failure, non-200 status, undecodable body). -/
def serverBusyResult : GameResult :=
  { success := false, data := GameData.zero, error := "服务器繁忙", errCode := 40101, isFatal := false }

/-- `Login` (game_client.go:204-302) as a function of the HTTP outcome.
A transport (`client.Do`) error returns `&GameResult\x7bSuccess: false,
Error: err.Error()\x7d` — note no `ErrCode` is set, so it stays at the Go
zero value 0. Read failure, non-200 status and decode failure each return
the 40101 busy result; a decoded body is classified by its `code` field. -/
def Login (h : HttpOutcome) : GameResult :=
  match h with
  | .netError m => { success := false, data := GameData.zero, error := m, errCode := 0, isFatal := false }
  | .resp status body =>
    match body with
    | .readError => serverBusyResult
    | .undecodable => serverBusyResult
    | .decoded r =>
      if status ≠ 200 then serverBusyResult
      else if r.code = 0 then
        { success := true, data := r.data, error := "", errCode := 0, isFatal := false }
      else
        let errCodeInt := parseErrCode r.errCode
        let e1 := getErrorMessage errCodeInt
        let e2 := if e1 = "" then r.msg else e1
        let e3 := if e2 = "" then "登录失败" else e2
        { success := false, data := GameData.zero, error := e3, errCode := errCodeInt, isFatal := false }

/-- `GetCaptcha` (game_client.go:305-400); same transport handling as
`Login`, the success branch carries the captcha image. -/
def GetCaptcha (h : HttpOutcome) : GameResult :=
  match h with
  | .netError m => { success := false, data := GameData.zero, error := m, errCode := 0, isFatal := false }
  | .resp status body =>
    match body with
    | .readError => serverBusyResult
    | .undecodable => serverBusyResult
    | .decoded r =>
      if status ≠ 200 then serverBusyResult
      else if r.code = 0 then
        { success := true, data := r.data, error := "", errCode := 0, isFatal := false }
      else
        let errCodeInt := parseErrCode r.errCode
        let e1 := getErrorMessage errCodeInt
        let e2 := if e1 = "" then r.msg else e1
        let e3 := if e2 = "" then "获取验证码失败" else e2
        { success := false, data := GameData.zero, error := e3, errCode := errCodeInt, isFatal := false }

/-- `RedeemCode` (game_client.go:403-534): same transport handling; a
decoded body is classified by `isSuccess (parseErrCode err_code)`, and a
failure carries `IsFatal = isFatalError errCode`. Unknown codes append
the raw `msg`. -/
def RedeemCode (h : HttpOutcome) : GameResult :=
  match h with
  | .netError m => { success := false, data := GameData.zero, error := m, errCode := 0, isFatal := false }
  | .resp status body =>
    match body with
    | .readError => serverBusyResult
    | .undecodable => serverBusyResult
    | .decoded r =>
      if status ≠ 200 then serverBusyResult
      else
        let errCodeInt := parseErrCode r.errCode
        if isSuccess errCodeInt then
          { success := true, data := r.data, error := "", errCode := errCodeInt, isFatal := false }
        else
          let e1 := getErrorMessage errCodeInt
          let e2 := if e1.startsWith "未知错误" ∧ r.msg ≠ "" then e1 ++ " | msg: " ++ r.msg else e1
          let e3 := if e2 = "" then r.msg else e2
          let e4 := if e3 = "" then "兑换失败" else e3
          { success := false, data := GameData.zero, error := e4,
            errCode := errCodeInt, isFatal := isFatalError errCodeInt }

/-! ### The automation service (`automation_service.go`) -/

/-- Normalize one captcha character as in the Go loops (part_001:874-885):
digits and uppercase letters pass through, lowercase letters are
uppercased, everything else is dropped. -/
def normChar (c : Char) : Option Char :=
  if '0' ≤ c ∧ c ≤ '9' then some c
  else if 'a' ≤ c ∧ c ≤ 'z' then some (Char.ofNat (c.toNat - 'a'.toNat + 'A'.toNat))
  else if 'A' ≤ c ∧ c ≤ 'Z' then some c
  else none

/-- Captcha normalization: keep the first 4 alphanumeric characters,
uppercased. The Go loop stops as soon as 4 characters were collected;
filtering everything and then taking 4 yields the same list. -/
def normalize4 (s : String) : String :=
  String.mk ((s.data.filterMap normChar).take 4)

/-- `RedeemResult` (part_001:139-152), restricted to the fields read by the
batch scheduler. -/
structure RedeemOutcome where
  success : Bool
  errCode : Int
  isFatal : Bool
  errText : String
  captcha : String
  stage : String
deriving DecidableEq, Repr

/-- `tryOnceNoCooldown` (part_001:832-914) as a pure function of the four
external interactions it performs: the login result, the captcha-fetch
result, the OCR answer (`none` models an OCR error) and the redeem result.
`none` for a `GameResult` models the rare hard error (`err ≠ nil`) of the
corresponding call. -/
def tryOnceNoCooldown (loginRes : Option GameResult) (captchaRes : Option GameResult)
    (ocrRes : Option String) (redeemRes : Option GameResult) : RedeemOutcome :=
  match loginRes with
  | none => { success := false, errCode := 0, isFatal := false,
              errText := "登录请求异常", captcha := "", stage := "login_exception" }
  | some lr =>
    if lr.success = false then
      if lr.errCode = 40101 then
        { success := false, errCode := 40101, isFatal := false,
          errText := lr.error, captcha := "", stage := "login" }
      else
        { success := false, errCode := lr.errCode, isFatal := isFatalError lr.errCode,
          errText := lr.error, captcha := "", stage := "login" }
    else
      match captchaRes with
      | none => { success := false, errCode := 40101, isFatal := false,
                  errText := "获取验证码异常", captcha := "", stage := "captcha_exception" }
      | some cr =>
        if cr.success = false then
          if cr.errCode = 40101 then
            { success := false, errCode := 40101, isFatal := false,
              errText := cr.error, captcha := "", stage := "captcha" }
          else if cr.errCode = 40100 then
            { success := false, errCode := 40100, isFatal := false,
              errText := cr.error, captcha := "", stage := "captcha" }
          else
            { success := false, errCode := cr.errCode, isFatal := false,
              errText := cr.error, captcha := "", stage := "captcha" }
        else
          match ocrRes with
          | none => { success := false, errCode := 40103, isFatal := false,
                      errText := "验证码识别失败", captcha := "", stage := "ocr" }
          | some raw =>
            if raw = "" then
              { success := false, errCode := 40103, isFatal := false,
                errText := "验证码识别失败", captcha := "", stage := "ocr" }
            else
              let captchaValue := normalize4 raw
              if captchaValue.length ≠ 4 then
                { success := false, errCode := 40103, isFatal := false,
                  errText := "验证码长度异常", captcha := "", stage := "ocr" }
              else
                match redeemRes with
                | none => { success := false, errCode := 40101, isFatal := false,
                            errText := "兑换请求异常", captcha := "", stage := "redeem_exception" }
                | some rr =>
                  if rr.success then
                    { success := true, errCode := rr.errCode, isFatal := false,
                      errText := "", captcha := captchaValue, stage := "completed" }
                  else if rr.errCode = 40101 then
                    { success := false, errCode := 40101, isFatal := false,
                      errText := rr.error, captcha := captchaValue, stage := "redeem" }
                  else if rr.errCode = 40102 ∨ rr.errCode = 40103 then
                    { success := false, errCode := rr.errCode, isFatal := false,
                      errText := rr.error, captcha := captchaValue, stage := "redeem" }
                  else if rr.isFatal then
                    { success := false, errCode := rr.errCode, isFatal := true,
                      errText := rr.error, captcha := captchaValue, stage := "redeem" }
                  else
                    { success := false, errCode := rr.errCode, isFatal := false,
                      errText := rr.error, captcha := captchaValue, stage := "redeem" }

/-- `client.Account` (part_001:930-933). -/
structure AccountIn where
  id : Int
  fid : String
deriving DecidableEq, Repr

/-- Scheduler-internal `accountState` (part_001:655-661). Times are
modelled in seconds as `Nat`. -/
structure AccountState where
  acc : AccountIn
  cooldowns : Nat
  attemptsInCycle : Nat
  nextReadyAt : Nat
  finalized : Bool
deriving DecidableEq, Repr

/-- `BatchRedeemResult` (part_001:917-927), without the `Skipped` flag the
scheduler never sets. -/
structure BatchRedeemResult where
  accountId : Int
  fid : String
  result : String
  error : String
  captchaRecognized : String
  processingTime : Nat
  errCode : Int
  success : Bool
deriving DecidableEq, Repr

/-- The per-attempt temporary result (part_001:734-743), built before the
outcome classification. -/
def mkTmp (st : AccountState) (o : RedeemOutcome) (procSec : Nat) : BatchRedeemResult :=
  { accountId := st.acc.id, fid := st.acc.fid, result := "failed", error := o.errText,
    captchaRecognized := o.captcha, processingTime := procSec, errCode := o.errCode,
    success := o.success }

/-- The outcome classification of one attempt (part_001:745-814): returns
the updated account state and the result row appended when the account is
finalized. Mirrors, in order: the success branch, the fatal branch, and
the `switch` on the error code (40101 / 40102,40103 / 40100 / default). -/
def applyOutcome (st : AccountState) (o : RedeemOutcome) (now : Nat) (procSec : Nat) :
    AccountState × Option BatchRedeemResult :=
  let tmp := mkTmp st o procSec
  if o.success then
    ({ st with finalized := true }, some { tmp with result := "success", error := "" })
  else if o.isFatal then
    ({ st with finalized := true }, some tmp)
  else if o.errCode = 40101 then
    let c := st.cooldowns + 1
    if 3 ≤ c then
      ({ st with cooldowns := c, attemptsInCycle := 0, finalized := true }, some tmp)
    else
      ({ st with cooldowns := c, attemptsInCycle := 0, nextReadyAt := now + 60 }, none)
  else if o.errCode = 40102 ∨ o.errCode = 40103 then
    let a := st.attemptsInCycle + 1
    if 3 ≤ a then
      let c := st.cooldowns + 1
      if 3 ≤ c then
        ({ st with cooldowns := c, attemptsInCycle := 0, finalized := true }, some tmp)
      else
        ({ st with cooldowns := c, attemptsInCycle := 0, nextReadyAt := now + 60 }, none)
    else
      ({ st with attemptsInCycle := a, nextReadyAt := now + 3 }, none)
  else if o.errCode = 40100 then
    ({ st with attemptsInCycle := st.attemptsInCycle + 1, nextReadyAt := now + 3 }, none)
  else
    ({ st with finalized := true }, some tmp)

/-- Helper for `pickNext` (part_001:679-698): scan the states carrying the
current index and the earliest pending (index, absolute ready time); the
first non-finalized account already ready is returned with wait 0,
otherwise the earliest non-finalized account with its remaining wait. -/
def pickNextAux (now : Nat) : List AccountState → Nat → Option (Nat × Nat) → Option (Nat × Nat)
  | [], _, best => match best with
    | none => none
    | some (j, t) => some (j, t - now)
  | st :: rest, i, best =>
    if st.finalized then pickNextAux now rest (i + 1) best
    else if st.nextReadyAt ≤ now then some (i, 0)
    else
      let best2 := match best with
        | none => some (i, st.nextReadyAt)
        | some (j, t) => if st.nextReadyAt < t then some (i, st.nextReadyAt) else some (j, t)
      pickNextAux now rest (i + 1) best2

/-- `pickNext` (part_001:679-698): `some (i, 0)` means account `i` is ready
now, `some (i, w)` with `w > 0` means all pending accounts are cooling
down and account `i` becomes ready after waiting `w`; `none` means every
account is finalized. -/
def pickNext (states : List AccountState) (now : Nat) : Option (Nat × Nat) :=
  pickNextAux now states 0 none

/-- The mutable state of the `RedeemBatch` scheduling loop
(part_001:667-677): the per-account states, the accumulated results, the
`pending` counter, the clock, the last-attempt instant for the 3-second
switch throttle, and the number of attempts performed so far (the index
into the outcome oracle). -/
structure BatchState where
  states : List AccountState
  results : List BatchRedeemResult
  pending : Nat
  now : Nat
  lastSwitchAt : Option Nat
  k : Nat
deriving DecidableEq, Repr

/-- Result of one iteration of the scheduling loop: the loop exits with
state `s`, or continues with state `s`. -/
inductive StepRes
  | done (s : BatchState)
  | next (s : BatchState)
deriving DecidableEq, Repr

/-- One iteration of the `for pending > 0` loop (part_001:700-815). The
outcome of the `i`-th attempt (`tryOnceNoCooldown` against the external
world) is supplied by `oracle i`. Attempts are instantaneous in this
model; the wait branch advances the clock to the earliest ready time, the
switch throttle advances it by up to 3 seconds. The `states[i]?` miss
branch is unreachable (`pickNext` only returns valid indices). -/
def batchStep (oracle : Nat → RedeemOutcome) (s : BatchState) : StepRes :=
  if s.pending = 0 then .done s
  else
    match pickNext s.states s.now with
    | none => .done s
    | some (i, w) =>
      if 0 < w then .next { s with now := s.now + w }
      else
        let nowT := match s.lastSwitchAt with
          | none => s.now
          | some t => if s.now - t < 3 then t + 3 else s.now
        match s.states[i]? with
        | none => .done s
        | some st =>
          let o := oracle s.k
          let step := applyOutcome st o nowT 0
          .next { s with
            states := s.states.set i step.1,
            results := match step.2 with
              | some r => s.results ++ [r]
              | none => s.results,
            pending := if step.1.finalized then s.pending - 1 else s.pending,
            now := nowT,
            lastSwitchAt := some nowT,
            k := s.k + 1 }

/-- Run the scheduling loop for at most `fuel` iterations, returning the
state at loop exit (or `none` if the fuel ran out before the loop
terminated). -/
def runBatchAux (oracle : Nat → RedeemOutcome) : Nat → BatchState → Option BatchState
  | 0, _ => none
  | fuel + 1, s =>
    match batchStep oracle s with
    | .done sF => some sF
    | .next s2 => runBatchAux oracle fuel s2

/-- Initial scheduler state (part_001:667-673): every account starts with
zero counters, ready immediately. -/
def initBatch (accounts : List AccountIn) : BatchState :=
  { states := accounts.map (fun a =>
      { acc := a, cooldowns := 0, attemptsInCycle := 0, nextReadyAt := 0, finalized := false }),
    results := [], pending := accounts.length, now := 0, lastSwitchAt := none, k := 0 }

/-- `RedeemBatch` (part_001:653-829): run the scheduling loop from the
initial state and return the accumulated result list. -/
def RedeemBatch (oracle : Nat → RedeemOutcome) (accounts : List AccountIn) (fuel : Nat) :
    Option (List BatchRedeemResult) :=
  (runBatchAux oracle fuel (initBatch accounts)).map (fun s => s.results)

/-! ### The account redeem gate (`accountRedeemGate`, part_001:124-135)

`accountRedeemGate` is a one-slot channel: `acquireAccountGate` blocks
while the slot is taken, `releaseAccountGate` drains it. The flows are
abstracted to their gate-relevant event skeletons:
* `RedeemSingle` (part_001:178-650) acquires the gate on entry (line 185)
  and releases it on return (deferred, line 186); in between it performs
  its captcha-bearing interactions with the external API;
* `RedeemBatch` (part_001:653-829) never touches the gate: each scheduled
  attempt (`tryOnceNoCooldown`) performs a captcha-bearing interaction
  with no acquire/release around it, and neither do its callers
  (part_015:241, part_015:385).
-/

/-- Gate-relevant events of a redemption flow. A captcha-bearing
interaction with the external API is bracketed by `beginCaptcha` /
`endCaptcha`. -/
inductive FlowOp
  | acquireGate
  | releaseGate
  | beginCaptcha
  | endCaptcha
deriving DecidableEq, Repr

/-- `n` consecutive captcha-bearing interactions. -/
def captchaBody (n : Nat) : List FlowOp :=
  (List.replicate n [FlowOp.beginCaptcha, FlowOp.endCaptcha]).flatten

/-- Event skeleton of `RedeemSingle`: acquire the gate, run the
interactions, release the gate. -/
def redeemSingleFlow (n : Nat) : List FlowOp :=
  FlowOp.acquireGate :: captchaBody n ++ [FlowOp.releaseGate]

/-- Event skeleton of `RedeemBatch`: the interactions run with no gate
acquisition at all. -/
def redeemBatchFlow (n : Nat) : List FlowOp :=
  captchaBody n

/-- One concurrently running flow: its remaining events, whether it holds
the gate, and whether it is inside a captcha-bearing interaction. -/
structure ThreadState where
  prog : List FlowOp
  holdsGate : Bool
  inCaptcha : Bool
deriving DecidableEq, Repr

/-- Two concurrently started flows sharing the one-slot gate. -/
structure TwoFlows where
  t1 : ThreadState
  t2 : ThreadState
  gate : Bool
deriving DecidableEq, Repr

/-- Execute the next event of one thread. `acquireGate` blocks (returns
`none`) while the gate is held, matching the one-slot channel send;
`releaseGate` drains the slot. -/
def execOp (t : ThreadState) (gate : Bool) : Option (ThreadState × Bool) :=
  match t.prog with
  | [] => none
  | op :: rest =>
    match op with
    | .acquireGate => if gate then none else some ({ t with prog := rest, holdsGate := true }, true)
    | .releaseGate => some ({ t with prog := rest, holdsGate := false }, false)
    | .beginCaptcha => some ({ t with prog := rest, inCaptcha := true }, gate)
    | .endCaptcha => some ({ t with prog := rest, inCaptcha := false }, gate)

/-- Scheduler step: run one event of the chosen thread (`true` = first
thread); a blocked or finished thread leaves the state unchanged. -/
def stepFlow (c : TwoFlows) (first : Bool) : TwoFlows :=
  if first then
    match execOp c.t1 c.gate with
    | some (t, g) => { c with t1 := t, gate := g }
    | none => c
  else
    match execOp c.t2 c.gate with
    | some (t, g) => { c with t2 := t, gate := g }
    | none => c

/-- Run an interleaving schedule. -/
def runFlows (c : TwoFlows) : List Bool → TwoFlows
  | [] => c
  | b :: rest => runFlows (stepFlow c b) rest

/-- Two flows started concurrently, gate initially free. -/
def initFlows (p1 p2 : List FlowOp) : TwoFlows :=
  { t1 := { prog := p1, holdsGate := false, inCaptcha := false },
    t2 := { prog := p2, holdsGate := false, inCaptcha := false },
    gate := false }

/-- Both flows are inside a captcha-bearing interaction at the same time. -/
def overlapped (c : TwoFlows) : Bool :=
  c.t1.inCaptcha && c.t2.inCaptcha

/-! ### Job retry with exponential backoff (`job_queue.go`) -/

/-- Two's-complement wrap of an integer into a signed 64-bit value, as Go
`int` arithmetic does on overflow. -/
def wrap64 (x : Int) : Int :=
  (x + 2 ^ 63) % 2 ^ 64 - 2 ^ 63

/-- Go `1 << retries` on `int`: shifts by 64 or more produce 0, a shift by
63 wraps to the most negative value. -/
def shiftOne (retries : Nat) : Int :=
  if 64 ≤ retries then 0 else wrap64 (2 ^ retries)

/-- The backoff delay in nanoseconds computed by `RetryJob`
(job_queue.go:133-137): `delay := time.Duration(1 << retries) *
time.Second; if delay > 60s then delay = 60s`. Both the shift and the
multiplication are 64-bit and wrap on overflow. -/
def retryDelayNs (retries : Nat) : Int :=
  let delay := wrap64 (shiftOne retries * 1000000000)
  if 60 * 1000000000 < delay then 60 * 1000000000 else delay

/-- The in-memory `Job` (job_queue.go:27-33) together with the persisted
columns `RetryJob` touches (`status`, `next_run_at`, `error_message`). -/
structure Job where
  id : Int
  retries : Nat
  maxRetries : Nat
  status : String
  nextRunAt : Int
  errorMessage : String
deriving DecidableEq, Repr

/-- `RetryJob` (job_queue.go:127-154) combined with the
`IncrementJobRetries` update (job_repository.go:133-153): below the retry
ceiling, increment `retries`, set `next_run_at = now + delay`, reset the
status to pending; at or above the ceiling, mark the job failed with the
message `达到最大重试次数: err`. `now` is in nanoseconds. -/
def RetryJob (job : Job) (errorMessage : String) (now : Int) : Job :=
  if job.maxRetries ≤ job.retries then
    { job with status := "failed", errorMessage := "达到最大重试次数: " ++ errorMessage }
  else
    { job with
      retries := job.retries + 1,
      nextRunAt := now + retryDelayNs job.retries,
      errorMessage := errorMessage,
      status := "pending" }

/-! ### OCR key balancer (`ocr_manager.go`) -/

/-- `model.OCRKey`, restricted to the fields the balancer reads. -/
structure OCRKey where
  id : Int
  provider : String
  weight : Int
  isActive : Bool
  hasQuota : Bool
  monthlyQuota : Int
  remainingQuota : Int
deriving DecidableEq, Repr

/-- Whitespace test used by the provider-name trim (`strings.TrimSpace`),
restricted to the ASCII whitespace relevant to provider names. -/
def isSpaceChar (c : Char) : Bool :=
  c = ' ' ∨ c = '\t' ∨ c = '\n' ∨ c = '\r'

/-- ASCII lowercase of one character (`strings.ToLower` on the ASCII
provider names in use). -/
def lowerChar (c : Char) : Char :=
  if 'A' ≤ c ∧ c ≤ 'Z' then Char.ofNat (c.toNat + 32) else c

/-- Provider-name normalization (ocr_manager.go:57-60): trim whitespace,
lowercase, empty defaults to `baidu`. -/
def normalizeProvider (p : String) : String :=
  let q := String.mk ((((p.data.dropWhile isSpaceChar).reverse.dropWhile
    isSpaceChar).reverse).map lowerChar)
  if q = "" then "baidu" else q

/-- The provider registry contents at startup (ocr_manager.go:210-214):
only `baidu` is pre-registered and no other call site registers a
provider. `Reload` is parameterized over the registry so the theorems
hold for any registered set. -/
def builtinProviders : List String := ["baidu"]

/-- Effective weight of a retained key (ocr_manager.go:70-82): when quota
information is present, the base weight is scaled by
`1 + remaining/monthly`, capped at 2, truncated to an integer, floored at
1. The Go `float64` arithmetic is modelled by exact rationals; Go `int()`
truncation coincides with `Int.floor` on these non-negative products. -/
def effWeight (k : OCRKey) : Int :=
  if 0 < k.monthlyQuota ∧ 0 ≤ k.remainingQuota then
    let eff : ℚ := min 2 (1 + (k.remainingQuota : ℚ) / (k.monthlyQuota : ℚ))
    let w : Int := ⌊(k.weight : ℚ) * eff⌋
    if w < 1 then 1 else w
  else k.weight

/-- A key together with its smoothed-weighted-round-robin accumulator
(`weightedKey`, ocr_manager.go:21-25). -/
structure WeightedKey where
  key : OCRKey
  current : Int
deriving DecidableEq, Repr

/-- The balancer state: the retained keys and the total (effective)
weight. -/
structure OCRKeyManager where
  keys : List WeightedKey
  total : Int
deriving DecidableEq, Repr

/-- The retention test of `Reload` (ocr_manager.go:52-67): a key
participates iff it is active, has quota, has positive weight, and its
normalized provider is registered (the two `continue` branches of the Go
loop merged into one predicate). -/
def keyRetained (registry : List String) (k : OCRKey) : Bool :=
  k.isActive && k.hasQuota && decide (0 < k.weight) &&
    registry.contains (normalizeProvider k.provider)

/-- `Reload` (ocr_manager.go:45-88): rebuild the selection set from the
fresh key list; every retained key starts with accumulator 0 and `total`
is the sum of the retained keys' effective weights. -/
def Reload (registry : List String) (keys : List OCRKey) : OCRKeyManager :=
  let retained := keys.filter (keyRetained registry)
  { keys := retained.map (fun k => { key := k, current := 0 }),
    total := (retained.map effWeight).sum }

/-- The accumulator bump of one `pick` (ocr_manager.go:99): every key's
`current` grows by its BASE weight `wk.key.Weight`. In the Go loop the
bump and the best-so-far comparison are interleaved, but every
comparison reads already-bumped values, so bumping all keys first is
equivalent. -/
def bump (keys : List WeightedKey) : List WeightedKey :=
  keys.map (fun wk => { wk with current := wk.current + wk.key.weight })

/-- First index of the maximum accumulator (strictly greater replaces the
best-so-far, ocr_manager.go:100-102). -/
def pickBestAux : List WeightedKey → Nat → Nat → Int → Nat
  | [], _, bi, _ => bi
  | wk :: rest, i, bi, bc =>
    if bc < wk.current then pickBestAux rest (i + 1) i wk.current
    else pickBestAux rest (i + 1) bi bc

/-- Index of the chosen key of one `pick` over an already-bumped list. -/
def pickBest : List WeightedKey → Option Nat
  | [] => none
  | wk :: rest => some (pickBestAux rest 1 0 wk.current)

/-- `pick` (ocr_manager.go:91-108): bump every accumulator by the key's
base weight, choose the key with the highest accumulator (first wins on
ties), and subtract `total` from the chosen key's accumulator. Returns
the chosen key and the updated balancer. -/
def pick (m : OCRKeyManager) : Option (WeightedKey × OCRKeyManager) :=
  let l := bump m.keys
  match pickBest l with
  | none => none
  | some i =>
    match l[i]? with
    | none => none
    | some best =>
      let chosen := { best with current := best.current - m.total }
      some (chosen, { m with keys := l.set i chosen })

/-- The selection step as worded by the specification, for comparison with
`pick`: identical except that each key's accumulator is increased by its
EFFECTIVE weight. -/
def pickSpecWorded (m : OCRKeyManager) : Option (WeightedKey × OCRKeyManager) :=
  let l := m.keys.map (fun wk => { wk with current := wk.current + effWeight wk.key })
  match pickBest l with
  | none => none
  | some i =>
    match l[i]? with
    | none => none
    | some best =>
      let chosen := { best with current := best.current - m.total }
      some (chosen, { m with keys := l.set i chosen })

/-! ### Redeem-log replacement (`ReplaceRedeemLog`, part_008:70-129) -/

/-- One `redeem_logs` row, restricted to the columns `ReplaceRedeemLog`
writes. -/
structure RedeemLogRow where
  redeemCodeId : Int
  gameAccountId : Int
  fid : String
  code : String
  result : String
  errorMessage : Option String
  successMessage : Option String
  captchaRecognized : Option String
  processingTime : Option Int
  errCode : Option Int
deriving DecidableEq, Repr

/-- Whether a row belongs to the given (redeem-code, account) pair — the
`WHERE redeem_code_id = ? AND game_account_id = ?` predicate. -/
def rowMatches (codeId accountId : Int) (row : RedeemLogRow) : Bool :=
  row.redeemCodeId == codeId && row.gameAccountId == accountId

/-- `ReplaceRedeemLog` (part_008:70-129): inside one transaction, delete
every row of the (code, account) pair, then insert the new row. The table
is modelled as the list of rows in insertion order. -/
def ReplaceRedeemLog (table : List RedeemLogRow) (row : RedeemLogRow) : List RedeemLogRow :=
  (table.filter (fun r => !rowMatches row.redeemCodeId row.gameAccountId r)) ++ [row]

/-! ### Derived notions used by the theorems -/

/-- An outcome whose error code is not the captcha-issued-too-often code
40100 (successes and fatal outcomes are allowed any code, since their
branches fire first). -/
def goodOutcome (o : RedeemOutcome) : Prop :=
  o.success = false → o.isFatal = false → o.errCode ≠ 40100

/-- Remaining-work potential of one account: 0 once finalized, otherwise
`9 - (3·cooldowns + attemptsInCycle)`; each non-40100 attempt strictly
decreases it. -/
def phiAcc (st : AccountState) : Nat :=
  if st.finalized then 0 else 9 - (3 * st.cooldowns + st.attemptsInCycle)

/-- Total remaining-work potential of a scheduler state. -/
def phiTotal (s : BatchState) : Nat :=
  (s.states.map phiAcc).sum

/-- Some account is pending and already ready at the given clock. -/
def readyExists (states : List AccountState) (now : Nat) : Bool :=
  states.any (fun st => !st.finalized && decide (st.nextReadyAt ≤ now))

/-- Termination measure of the scheduling loop: every iteration strictly
decreases it as long as the oracle produces no 40100 outcome. -/
def muMeasure (s : BatchState) : Nat :=
  2 * phiTotal s + (if readyExists s.states s.now then 1 else 2)

/-- An outcome stream that always reports captcha-issued-too-often
(err code 40100). -/
def oracle40100 : Nat → RedeemOutcome :=
  fun _ => { success := false, errCode := 40100, isFatal := false,
             errText := "验证码获取过多", captcha := "", stage := "captcha" }

/-- An outcome stream where every attempt succeeds. -/
def oracleSuccess : Nat → RedeemOutcome :=
  fun _ => { success := true, errCode := 20000, isFatal := false,
             errText := "", captcha := "ABCD", stage := "completed" }

/-- A concrete account used by the witnesses. -/
def acct1 : AccountIn := { id := 1, fid := "100001" }

/-- A key with full remaining quota: base weight 2, effective weight 4. -/
def keyFullQuota : OCRKey :=
  { id := 1, provider := "baidu", weight := 2, isActive := true, hasQuota := true,
    monthlyQuota := 100, remainingQuota := 100 }

/-- A key without quota counters: base weight 3, effective weight 3. -/
def keyNoQuotaInfo : OCRKey :=
  { id := 2, provider := "baidu", weight := 3, isActive := true, hasQuota := true,
    monthlyQuota := 0, remainingQuota := 0 }

/-- An active key with quota and positive weight whose provider is not in
the registry. -/
def keyUnregistered : OCRKey :=
  { id := 3, provider := "nosuch", weight := 1, isActive := true, hasQuota := true,
    monthlyQuota := 0, remainingQuota := 0 }

/-- Structural invariant of a thread running the `RedeemSingle` skeleton:
its remaining program is a consistent suffix of `redeemSingleFlow` and
the gate/captcha flags match its position. -/
def SingleOk (t : ThreadState) : Prop :=
  (∃ n, t.prog = redeemSingleFlow n ∧ t.holdsGate = false ∧ t.inCaptcha = false) ∨
  (∃ n, t.prog = captchaBody n ++ [FlowOp.releaseGate] ∧ t.holdsGate = true ∧ t.inCaptcha = false) ∨
  (∃ n, t.prog = FlowOp.endCaptcha :: (captchaBody n ++ [FlowOp.releaseGate]) ∧
    t.holdsGate = true ∧ t.inCaptcha = true) ∨
  (t.prog = [] ∧ t.holdsGate = false ∧ t.inCaptcha = false)

/-- Mutual-exclusion invariant for two concurrent `RedeemSingle` flows:
both threads are structurally consistent, a held gate flag implies the
gate is taken, and the two threads never hold the gate simultaneously. -/
def GateInv (c : TwoFlows) : Prop :=
  SingleOk c.t1 ∧ SingleOk c.t2 ∧
  (c.t1.holdsGate = true → c.gate = true) ∧
  (c.t2.holdsGate = true → c.gate = true) ∧
  ¬(c.t1.holdsGate = true ∧ c.t2.holdsGate = true)

/-- Invariant: the `pending` counter equals the number of non-finalized
accounts (the loop decrements it exactly when an account finalizes). -/
def pendingInv (s : BatchState) : Prop :=
  s.pending = s.states.countP (fun st => !st.finalized)

/-- Invariant: the accumulated results are, up to order, exactly one row
per finalized account. -/
def resultsInv (s : BatchState) : Prop :=
  List.Perm (s.results.map (fun r => r.accountId))
    ((s.states.filter (fun st => st.finalized)).map (fun st => st.acc.id))

/-- Invariant: no pending account has exhausted its cooldown or
short-retry counters. -/
def boundsInv (s : BatchState) : Prop :=
  ∀ st ∈ s.states, st.finalized = false → st.cooldowns ≤ 2 ∧ st.attemptsInCycle ≤ 2

/-- Invariant: the scheduler states carry exactly the input accounts, in
order. -/
def accsInv (accounts : List AccountIn) (s : BatchState) : Prop :=
  s.states.map (fun st => st.acc) = accounts

/-! ### Helper lemmas -/

theorem sumMapSet_lt {α : Type} (f : α → Nat) :
    ∀ (l : List α) (i : Nat) (a b : α), l[i]? = some a → f b < f a →
      ((l.set i b).map f).sum < (l.map f).sum := by
  intro l
  induction l with
  | nil => intro i a b h _; simp at h
  | cons x xs ih =>
    intro i a b h hf
    cases i with
    | zero =>
      simp only [List.getElem?_cons_zero, Option.some.injEq] at h
      subst h
      simp only [List.set_cons_zero, List.map_cons, List.sum_cons]
      omega
    | succ n =>
      simp only [List.getElem?_cons_succ] at h
      have := ih n a b h hf
      simp only [List.set_cons_succ, List.map_cons, List.sum_cons]
      omega

theorem countPSet_flip {α : Type} (p : α → Bool) :
    ∀ (l : List α) (i : Nat) (a b : α), l[i]? = some a → p a = true → p b = false →
      (l.set i b).countP p + 1 = l.countP p := by
  intro l
  induction l with
  | nil => intro i a b h _ _; simp at h
  | cons x xs ih =>
    intro i a b h ha hb
    cases i with
    | zero =>
      simp only [List.getElem?_cons_zero, Option.some.injEq] at h
      subst h
      simp [List.set_cons_zero, List.countP_cons, ha, hb]
    | succ n =>
      simp only [List.getElem?_cons_succ] at h
      have := ih n a b h ha hb
      simp only [List.set_cons_succ, List.countP_cons]
      omega

theorem countPSet_keep {α : Type} (p : α → Bool) :
    ∀ (l : List α) (i : Nat) (a b : α), l[i]? = some a → p a = p b →
      (l.set i b).countP p = l.countP p := by
  intro l
  induction l with
  | nil => intro i a b h _; simp at h
  | cons x xs ih =>
    intro i a b h hab
    cases i with
    | zero =>
      simp only [List.getElem?_cons_zero, Option.some.injEq] at h
      subst h
      simp [List.set_cons_zero, List.countP_cons, hab]
    | succ n =>
      simp only [List.getElem?_cons_succ] at h
      have := ih n a b h hab
      simp only [List.set_cons_succ, List.countP_cons]
      omega

theorem filterSet_perm {α : Type} (p : α → Bool) :
    ∀ (l : List α) (i : Nat) (a b : α), l[i]? = some a → p a = false → p b = true →
      List.Perm ((l.set i b).filter p) (b :: l.filter p) := by
  intro l
  induction l with
  | nil => intro i a b h _ _; simp at h
  | cons x xs ih =>
    intro i a b h ha hb
    cases i with
    | zero =>
      simp only [List.getElem?_cons_zero, Option.some.injEq] at h
      subst h
      simp [List.set_cons_zero, List.filter_cons, ha, hb]
    | succ n =>
      simp only [List.getElem?_cons_succ] at h
      have hperm := ih n a b h ha hb
      simp only [List.set_cons_succ, List.filter_cons]
      by_cases hx : p x
      · simp only [hx, if_true]
        exact (hperm.cons x).trans (List.Perm.swap b x (xs.filter p))
      · simp only [hx, if_false]
        exact hperm

theorem filterSet_same {α : Type} (p : α → Bool) :
    ∀ (l : List α) (i : Nat) (a b : α), l[i]? = some a → p a = false → p b = false →
      (l.set i b).filter p = l.filter p := by
  intro l
  induction l with
  | nil => intro i a b h _ _; simp at h
  | cons x xs ih =>
    intro i a b h ha hb
    cases i with
    | zero =>
      simp only [List.getElem?_cons_zero, Option.some.injEq] at h
      subst h
      simp [List.set_cons_zero, List.filter_cons, ha, hb]
    | succ n =>
      simp only [List.getElem?_cons_succ] at h
      have := ih n a b h ha hb
      simp only [List.set_cons_succ, List.filter_cons]
      by_cases hx : p x <;> simp [hx, this]

theorem pickNextAux_some (states : List AccountState) (now : Nat) :
    ∀ (l : List AccountState) (i : Nat) (best : Option (Nat × Nat)) (j w : Nat),
      (∀ d, l[d]? = states[i + d]?) →
      (∀ j0 t0, best = some (j0, t0) → now < t0 ∧ ∃ st0, states[j0]? = some st0 ∧
        st0.finalized = false ∧ st0.nextReadyAt = t0) →
      pickNextAux now l i best = some (j, w) →
      ∃ st, states[j]? = some st ∧ st.finalized = false ∧
        (w = 0 → st.nextReadyAt ≤ now) ∧ (0 < w → st.nextReadyAt = now + w) := by
  intro l
  induction l with
  | nil =>
    intro i best j w _ hbest hrun
    cases best with
    | none => simp [pickNextAux] at hrun
    | some p =>
      obtain ⟨j0, t0⟩ := p
      simp only [pickNextAux, Option.some.injEq, Prod.mk.injEq] at hrun
      obtain ⟨hj, hw⟩ := hrun
      obtain ⟨hnow, st0, hst0, hfin, hready⟩ := hbest j0 t0 rfl
      subst hj
      refine ⟨st0, hst0, hfin, ?_, ?_⟩
      · intro h0; omega
      · intro _; omega
  | cons st l ih =>
    intro i best j w hsuf hbest hrun
    have hsuf' : ∀ d, l[d]? = states[(i + 1) + d]? := by
      intro d
      have := hsuf (d + 1)
      simpa [Nat.add_comm, Nat.add_assoc, Nat.add_left_comm] using this
    by_cases hfin : st.finalized
    · simp only [pickNextAux] at hrun; rw [if_pos hfin] at hrun
      exact ih (i + 1) best j w hsuf' hbest hrun
    · by_cases hready : st.nextReadyAt ≤ now
      · simp only [pickNextAux] at hrun; rw [if_neg hfin, if_pos hready] at hrun
        simp only [Option.some.injEq, Prod.mk.injEq] at hrun
        obtain ⟨hj, hw⟩ := hrun
        subst hj
        have h0 := hsuf 0
        simp only [List.getElem?_cons_zero, Nat.add_zero] at h0
        refine ⟨st, h0.symm, by simpa using hfin, fun _ => hready, fun hpos => by omega⟩
      · simp only [pickNextAux] at hrun; rw [if_neg hfin, if_neg hready] at hrun
        refine ih (i + 1) _ j w hsuf' ?_ hrun
        intro j0 t0 hbest2
        have h0 := hsuf 0
        simp only [List.getElem?_cons_zero, Nat.add_zero] at h0
        cases best with
        | none =>
          simp only [Option.some.injEq, Prod.mk.injEq] at hbest2
          obtain ⟨hj0, ht0⟩ := hbest2
          subst hj0; subst ht0
          exact ⟨by omega, st, h0.symm, by simpa using hfin, rfl⟩
        | some p =>
          obtain ⟨j1, t1⟩ := p
          dsimp only at hbest2
          by_cases hlt : st.nextReadyAt < t1
          · rw [if_pos hlt] at hbest2
            simp only [Option.some.injEq, Prod.mk.injEq] at hbest2
            obtain ⟨hj0, ht0⟩ := hbest2
            subst hj0; subst ht0
            exact ⟨by omega, st, h0.symm, by simpa using hfin, rfl⟩
          · rw [if_neg hlt] at hbest2
            simp only [Option.some.injEq, Prod.mk.injEq] at hbest2
            obtain ⟨hj0, ht0⟩ := hbest2
            subst hj0; subst ht0
            exact hbest j1 t1 rfl

theorem pickNextAux_none (now : Nat) :
    ∀ (l : List AccountState) (i : Nat) (best : Option (Nat × Nat)),
      pickNextAux now l i best = none → best = none ∧ ∀ st ∈ l, st.finalized = true := by
  intro l
  induction l with
  | nil =>
    intro i best hrun
    cases best with
    | none => exact ⟨rfl, by simp⟩
    | some p => obtain ⟨j0, t0⟩ := p; simp [pickNextAux] at hrun
  | cons st l ih =>
    intro i best hrun
    by_cases hfin : st.finalized
    · simp only [pickNextAux] at hrun; rw [if_pos hfin] at hrun
      obtain ⟨hb, hall⟩ := ih (i + 1) best hrun
      exact ⟨hb, by simpa [hfin] using hall⟩
    · by_cases hready : st.nextReadyAt ≤ now
      · simp only [pickNextAux] at hrun; rw [if_neg hfin, if_pos hready] at hrun
        simp at hrun
      · simp only [pickNextAux] at hrun; rw [if_neg hfin, if_neg hready] at hrun
        obtain ⟨hb, _⟩ := ih (i + 1) _ hrun
        exfalso
        cases best with
        | none => exact Option.noConfusion hb
        | some p =>
          dsimp only at hb
          by_cases hlt : st.nextReadyAt < p.2
          · rw [if_pos hlt] at hb; exact Option.noConfusion hb
          · rw [if_neg hlt] at hb; exact Option.noConfusion hb

theorem pickNextAux_ready (now : Nat) :
    ∀ (l : List AccountState) (i : Nat) (best : Option (Nat × Nat)) (st : AccountState),
      st ∈ l → st.finalized = false → st.nextReadyAt ≤ now →
      ∃ j, pickNextAux now l i best = some (j, 0) := by
  intro l
  induction l with
  | nil => intro i best st hmem; simp at hmem
  | cons x l ih =>
    intro i best st hmem hfin hready
    by_cases hxfin : x.finalized
    · have hmem' : st ∈ l := by
        rcases List.mem_cons.mp hmem with h | h
        · subst h; rw [hxfin] at hfin; cases hfin
        · exact h
      obtain ⟨j, hj⟩ := ih (i + 1) best st hmem' hfin hready
      exact ⟨j, by simp only [pickNextAux]; rw [if_pos hxfin]; exact hj⟩
    · by_cases hxready : x.nextReadyAt ≤ now
      · exact ⟨i, by simp only [pickNextAux]; rw [if_neg hxfin, if_pos hxready]⟩
      · have hmem' : st ∈ l := by
          rcases List.mem_cons.mp hmem with h | h
          · subst h; exact absurd hready hxready
          · exact h
        obtain ⟨j, hj⟩ := ih (i + 1) _ st hmem' hfin hready
        exact ⟨j, by simp only [pickNextAux]; rw [if_neg hxfin, if_neg hxready]; exact hj⟩

theorem pickNext_some (states : List AccountState) (now : Nat) (j w : Nat)
    (h : pickNext states now = some (j, w)) :
    ∃ st, states[j]? = some st ∧ st.finalized = false ∧
      (w = 0 → st.nextReadyAt ≤ now) ∧ (0 < w → st.nextReadyAt = now + w) := by
  refine pickNextAux_some states now states 0 none j w ?_ ?_ h
  · intro d; simp
  · intro j0 t0 h0; cases h0

theorem pickNext_noneAll (states : List AccountState) (now : Nat)
    (h : pickNext states now = none) : ∀ st ∈ states, st.finalized = true :=
  (pickNextAux_none now states 0 none h).2

theorem pickNext_ready (states : List AccountState) (now : Nat) (st : AccountState)
    (hmem : st ∈ states) (hfin : st.finalized = false) (hready : st.nextReadyAt ≤ now) :
    ∃ j, pickNext states now = some (j, 0) :=
  pickNextAux_ready now states 0 none st hmem hfin hready

theorem applyOutcome_acc (st : AccountState) (o : RedeemOutcome) (now p : Nat) :
    ((applyOutcome st o now p).1).acc = st.acc := by
  simp only [applyOutcome]
  split_ifs <;> rfl

theorem applyOutcome_shape (st : AccountState) (o : RedeemOutcome) (now p : Nat)
    (hfin : st.finalized = false) :
    ((applyOutcome st o now p).1.finalized = true ∧
      ∃ r, (applyOutcome st o now p).2 = some r ∧ r.accountId = st.acc.id) ∨
    ((applyOutcome st o now p).1.finalized = false ∧ (applyOutcome st o now p).2 = none) := by
  simp only [applyOutcome]
  split_ifs <;> simp [mkTmp, hfin]

theorem applyOutcome_progress (st : AccountState) (o : RedeemOutcome) (now p : Nat)
    (hfin : st.finalized = false) (hc : st.cooldowns ≤ 2) (ha : st.attemptsInCycle ≤ 2)
    (hgood : goodOutcome o) :
    phiAcc (applyOutcome st o now p).1 < phiAcc st ∧
    ((applyOutcome st o now p).1.finalized = false →
      (applyOutcome st o now p).1.cooldowns ≤ 2 ∧
      (applyOutcome st o now p).1.attemptsInCycle ≤ 2) := by
  simp only [applyOutcome]
  split_ifs with h1 h2 h3 h4 h5 h6 h7 h8
  · exact ⟨by simp [phiAcc, hfin]; omega, by simp⟩
  · exact ⟨by simp [phiAcc, hfin]; omega, by simp⟩
  · exact ⟨by simp [phiAcc, hfin]; omega, by simp⟩
  · refine ⟨by simp [phiAcc, hfin]; omega, fun _ => ?_⟩
    constructor
    · simp only [AccountState.mk.injEq]
      simp; omega
    · simp
  · exact ⟨by simp [phiAcc, hfin]; omega, by simp⟩
  · refine ⟨by simp [phiAcc, hfin]; omega, fun _ => ?_⟩
    constructor
    · simp; omega
    · simp
  · refine ⟨by simp [phiAcc, hfin]; omega, fun _ => ?_⟩
    constructor
    · simp; omega
    · simp; omega
  · exfalso
    have hS : o.success = false := by
      cases hval : o.success
      · rfl
      · exact absurd hval h1
    have hF : o.isFatal = false := by
      cases hval : o.isFatal
      · rfl
      · exact absurd hval h2
    exact hgood hS hF h8
  · exact ⟨by simp [phiAcc, hfin]; omega, by simp⟩

theorem batchStep_next_inv (oracle : Nat → RedeemOutcome) (s s2 : BatchState)
    (h : batchStep oracle s = .next s2) :
    s.pending ≠ 0 ∧
    ((∃ i w, 0 < w ∧ pickNext s.states s.now = some (i, w) ∧
        s2.states = s.states ∧ s2.results = s.results ∧ s2.pending = s.pending ∧
        s2.now = s.now + w ∧ s2.k = s.k) ∨
      (∃ i st nowT st2 res2, pickNext s.states s.now = some (i, 0) ∧
        s.states[i]? = some st ∧ applyOutcome st (oracle s.k) nowT 0 = (st2, res2) ∧
        s.now ≤ nowT ∧ s2.states = s.states.set i st2 ∧
        s2.results = (match res2 with | some r => s.results ++ [r] | none => s.results) ∧
        s2.pending = (if st2.finalized then s.pending - 1 else s.pending) ∧
        s2.now = nowT ∧ s2.k = s.k + 1)) := by
  by_cases hp : s.pending = 0
  · rw [batchStep, if_pos hp] at h; cases h
  · rw [batchStep, if_neg hp] at h
    refine ⟨hp, ?_⟩
    cases hpn : pickNext s.states s.now with
    | none => rw [hpn] at h; cases h
    | some p =>
      obtain ⟨i, w⟩ := p
      rw [hpn] at h
      dsimp only at h
      by_cases hw : 0 < w
      · rw [if_pos hw] at h
        cases h
        exact Or.inl ⟨i, w, hw, rfl, rfl, rfl, rfl, rfl, rfl⟩
      · rw [if_neg hw] at h
        have hw0 : w = 0 := by omega
        subst hw0
        cases hst : s.states[i]? with
        | none => rw [hst] at h; cases h
        | some st =>
          rw [hst] at h
          dsimp only at h
          cases h
          refine Or.inr ⟨i, st,
            (match s.lastSwitchAt with
              | none => s.now
              | some t => if s.now - t < 3 then t + 3 else s.now),
            _, _, rfl, hst, rfl, ?_, rfl, rfl, rfl, rfl, rfl⟩
          cases s.lastSwitchAt with
          | none => exact Nat.le_refl _
          | some t =>
            dsimp only
            split_ifs <;> omega

theorem batchStep_done_inv (oracle : Nat → RedeemOutcome) (s sF : BatchState)
    (h : batchStep oracle s = .done sF) :
    sF = s ∧ (s.pending = 0 ∨ pickNext s.states s.now = none ∨
      ∃ i, pickNext s.states s.now = some (i, 0) ∧ s.states[i]? = none) := by
  by_cases hp : s.pending = 0
  · rw [batchStep, if_pos hp] at h
    cases h
    exact ⟨rfl, Or.inl hp⟩
  · rw [batchStep, if_neg hp] at h
    cases hpn : pickNext s.states s.now with
    | none =>
      rw [hpn] at h
      cases h
      exact ⟨rfl, Or.inr (Or.inl rfl)⟩
    | some p =>
      obtain ⟨i, w⟩ := p
      rw [hpn] at h
      dsimp only at h
      by_cases hw : 0 < w
      · rw [if_pos hw] at h; cases h
      · rw [if_neg hw] at h
        have hw0 : w = 0 := by omega
        subst hw0
        cases hst : s.states[i]? with
        | none =>
          rw [hst] at h
          cases h
          exact ⟨rfl, Or.inr (Or.inr ⟨i, rfl, hst⟩)⟩
        | some st =>
          rw [hst] at h
          dsimp only at h
          cases h

theorem mapSet_eq {α β : Type} (f : α → β) :
    ∀ (l : List α) (i : Nat) (a b : α), l[i]? = some a → f b = f a →
      (l.set i b).map f = l.map f := by
  intro l
  induction l with
  | nil => intro i a b h _; simp at h
  | cons x xs ih =>
    intro i a b h hf
    cases i with
    | zero =>
      simp only [List.getElem?_cons_zero, Option.some.injEq] at h
      subst h
      simp [List.set_cons_zero, hf]
    | succ n =>
      simp only [List.getElem?_cons_succ] at h
      simp [List.set_cons_succ, ih n a b h hf]

theorem sumMapConst9 : ∀ (l : List AccountIn),
    ((l.map (fun a => (⟨a, 0, 0, 0, false⟩ : AccountState))).map phiAcc).sum = 9 * l.length := by
  intro l
  induction l with
  | nil => simp
  | cons x xs ih =>
    simp only [List.map_cons, List.sum_cons, ih, List.length_cons]
    simp [phiAcc]
    ring

theorem batchStep_accs (accounts : List AccountIn) (oracle : Nat → RedeemOutcome)
    (s s2 : BatchState) (h : batchStep oracle s = .next s2) (hinv : accsInv accounts s) :
    accsInv accounts s2 := by
  rcases (batchStep_next_inv oracle s s2 h).2 with
    ⟨i, w, _, _, hst, _, _, _, _⟩ | ⟨i, st, nowT, st2, res2, _, hget, hap, _, hst, _, _, _, _⟩
  · rwa [accsInv, hst]
  · rw [accsInv, hst]
    rw [accsInv] at hinv
    have hacc : st2.acc = st.acc := by
      have := applyOutcome_acc st (oracle s.k) nowT 0
      rw [hap] at this
      exact this
    rw [mapSet_eq _ s.states i st st2 hget hacc]
    exact hinv

theorem batchStep_pending (oracle : Nat → RedeemOutcome)
    (s s2 : BatchState) (h : batchStep oracle s = .next s2) (hinv : pendingInv s) :
    pendingInv s2 := by
  rcases (batchStep_next_inv oracle s s2 h).2 with
    ⟨i, w, _, _, hst, _, hp, _, _⟩ | ⟨i, st, nowT, st2, res2, hpn, hget, hap, _, hst, _, hp, _, _⟩
  · rw [pendingInv, hst, hp]; exact hinv
  · obtain ⟨st', hget', hfin', _, _⟩ := pickNext_some s.states s.now i 0 hpn
    rw [hget] at hget'
    injection hget' with hst'
    subst hst'
    rw [pendingInv, hst, hp]
    rw [pendingInv] at hinv
    by_cases hf2 : st2.finalized
    · have := countPSet_flip (fun st => !st.finalized) s.states i st st2 hget
        (by simp [hfin']) (by simp [hf2])
      rw [if_pos hf2]
      omega
    · have := countPSet_keep (fun st => !st.finalized) s.states i st st2 hget
        (by simp [hfin', Bool.not_eq_true] at hf2 ⊢; simp [hf2])
      rw [if_neg hf2, this]
      exact hinv

theorem batchStep_results (oracle : Nat → RedeemOutcome)
    (s s2 : BatchState) (h : batchStep oracle s = .next s2) (hinv : resultsInv s) :
    resultsInv s2 := by
  rcases (batchStep_next_inv oracle s s2 h).2 with
    ⟨i, w, _, _, hst, hres, _, _, _⟩ | ⟨i, st, nowT, st2, res2, hpn, hget, hap, _, hst, hres, _, _, _⟩
  · rw [resultsInv, hst, hres]; exact hinv
  · obtain ⟨st', hget', hfin', _, _⟩ := pickNext_some s.states s.now i 0 hpn
    rw [hget] at hget'
    injection hget' with hst'
    subst hst'
    have hacc : st2.acc = st.acc := by
      have := applyOutcome_acc st (oracle s.k) nowT 0
      rw [hap] at this
      exact this
    rcases applyOutcome_shape st (oracle s.k) nowT 0 hfin' with
      ⟨hf2, r, hr, hrid⟩ | ⟨hf2, hr⟩
    · rw [hap] at hf2 hr
      dsimp only at hf2 hr
      rw [resultsInv, hst, hres, hr]
      rw [resultsInv] at hinv
      have hperm := filterSet_perm (fun st => st.finalized) s.states i st st2 hget
        (by simp [hfin']) (by simp [hf2])
      refine List.Perm.trans ?_ (List.Perm.symm (hperm.map (fun st => st.acc.id)))
      simp only [List.map_cons, List.map_append, List.map_singleton]
      refine List.Perm.trans (List.perm_append_singleton _ _) ?_
      have hid : r.accountId = st2.acc.id := by
        rw [hacc]
        exact hrid
      rw [hid]
      exact hinv.cons _
    · rw [hap] at hf2 hr
      dsimp only at hf2 hr
      rw [resultsInv, hst, hres, hr]
      rw [resultsInv] at hinv
      rw [filterSet_same (fun st => st.finalized) s.states i st st2 hget
        (by simp [hfin']) (by simp [hf2])]
      exact hinv

theorem batchStep_bounds (oracle : Nat → RedeemOutcome)
    (s s2 : BatchState) (hgood : ∀ k, goodOutcome (oracle k))
    (h : batchStep oracle s = .next s2) (hinv : boundsInv s) :
    boundsInv s2 := by
  rcases (batchStep_next_inv oracle s s2 h).2 with
    ⟨i, w, _, _, hst, _, _, _, _⟩ | ⟨i, st, nowT, st2, res2, hpn, hget, hap, _, hst, _, _, _, _⟩
  · rw [boundsInv, hst]; exact hinv
  · obtain ⟨st', hget', hfin', _, _⟩ := pickNext_some s.states s.now i 0 hpn
    rw [hget] at hget'
    injection hget' with hst'
    subst hst'
    have hmem : st ∈ s.states := by
      have := List.getElem?_eq_some_iff.mp hget
      obtain ⟨hlt, hval⟩ := this
      exact hval ▸ List.getElem_mem hlt
    obtain ⟨hc, ha⟩ := hinv st hmem hfin'
    rw [boundsInv, hst]
    intro st3 hmem3 hfin3
    rcases List.mem_or_eq_of_mem_set hmem3 with h3 | h3
    · exact hinv st3 h3 hfin3
    · subst h3
      have := (applyOutcome_progress st (oracle s.k) nowT 0 hfin' hc ha (hgood s.k)).2
      rw [hap] at this
      exact this hfin3

theorem batchStep_mu (oracle : Nat → RedeemOutcome) (s s2 : BatchState)
    (hgood : ∀ k, goodOutcome (oracle k)) (hbounds : boundsInv s)
    (h : batchStep oracle s = .next s2) : muMeasure s2 < muMeasure s := by
  rcases (batchStep_next_inv oracle s s2 h).2 with
    ⟨i, w, hw, hpn, hst, _, _, hnow, _⟩ |
    ⟨i, st, nowT, st2, res2, hpn, hget, hap, _, hst, _, _, hnow, _⟩
  · have hre : readyExists s.states s.now = false := by
      by_cases hre : readyExists s.states s.now = true
      · exfalso
        rw [readyExists, List.any_eq_true] at hre
        obtain ⟨st, hmem, hp⟩ := hre
        simp only [Bool.and_eq_true, Bool.not_eq_true', decide_eq_true_eq] at hp
        obtain ⟨j, hj⟩ := pickNext_ready s.states s.now st hmem hp.1 hp.2
        rw [hpn] at hj
        injection hj with hj'
        have : w = 0 := (Prod.mk.injEq _ _ _ _).mp hj' |>.2
        omega
      · exact Bool.not_eq_true _ ▸ eq_false_of_ne_true hre
    have hre2 : readyExists s2.states s2.now = true := by
      obtain ⟨st, hget', hfin', _, hwt⟩ := pickNext_some s.states s.now i w hpn
      rw [readyExists, List.any_eq_true]
      refine ⟨st, ?_, ?_⟩
      · rw [hst]
        have := List.getElem?_eq_some_iff.mp hget'
        obtain ⟨hlt, hval⟩ := this
        exact hval ▸ List.getElem_mem hlt
      · simp only [Bool.and_eq_true, Bool.not_eq_true', decide_eq_true_eq]
        exact ⟨hfin', by rw [hnow, hwt hw]⟩
    have hphi : phiTotal s2 = phiTotal s := by rw [phiTotal, phiTotal, hst]
    rw [muMeasure, muMeasure, hre, hre2, hphi, if_pos rfl, if_neg Bool.false_ne_true]
    omega
  · obtain ⟨st', hget', hfin', hready', _⟩ := pickNext_some s.states s.now i 0 hpn
    rw [hget] at hget'
    injection hget' with hst'
    subst hst'
    have hre : readyExists s.states s.now = true := by
      rw [readyExists, List.any_eq_true]
      refine ⟨st, ?_, ?_⟩
      · have := List.getElem?_eq_some_iff.mp hget
        obtain ⟨hlt, hval⟩ := this
        exact hval ▸ List.getElem_mem hlt
      · simp only [Bool.and_eq_true, Bool.not_eq_true', decide_eq_true_eq]
        exact ⟨hfin', hready' rfl⟩
    have hmem : st ∈ s.states := by
      have := List.getElem?_eq_some_iff.mp hget
      obtain ⟨hlt, hval⟩ := this
      exact hval ▸ List.getElem_mem hlt
    obtain ⟨hc, ha⟩ := hbounds st hmem hfin'
    have hlt : phiAcc st2 < phiAcc st := by
      have := (applyOutcome_progress st (oracle s.k) nowT 0 hfin' hc ha (hgood s.k)).1
      rw [hap] at this
      exact this
    have hphi : phiTotal s2 < phiTotal s := by
      rw [phiTotal, phiTotal, hst]
      exact sumMapSet_lt phiAcc s.states i st st2 hget hlt
    have hb2 : (if readyExists s2.states s2.now then 1 else 2) ≤ 2 := by
      split_ifs <;> omega
    rw [muMeasure, muMeasure, hre, if_pos rfl]
    omega

theorem runBatchAux_total (oracle : Nat → RedeemOutcome) (hgood : ∀ k, goodOutcome (oracle k)) :
    ∀ (fuel : Nat) (s : BatchState), boundsInv s → muMeasure s < fuel →
      (runBatchAux oracle fuel s).isSome := by
  intro fuel
  induction fuel with
  | zero => intro s _ hmu; omega
  | succ n ih =>
    intro s hb hmu
    simp only [runBatchAux]
    cases hstep : batchStep oracle s with
    | done sF => simp
    | next s2 =>
      exact ih s2 (batchStep_bounds oracle s s2 hgood hstep hb)
        (by have := batchStep_mu oracle s s2 hgood hb hstep; omega)

theorem runBatchAux_props (accounts : List AccountIn) (oracle : Nat → RedeemOutcome) :
    ∀ (fuel : Nat) (s sF : BatchState), runBatchAux oracle fuel s = some sF →
      accsInv accounts s → pendingInv s → resultsInv s →
      accsInv accounts sF ∧ resultsInv sF ∧ ∀ st ∈ sF.states, st.finalized = true := by
  intro fuel
  induction fuel with
  | zero => intro s sF h; cases h
  | succ n ih =>
    intro s sF h ha hp hr
    simp only [runBatchAux] at h
    cases hstep : batchStep oracle s with
    | done sF' =>
      rw [hstep] at h
      obtain ⟨hEq, hexit⟩ := batchStep_done_inv oracle s sF' hstep
      subst hEq
      injection h with h'
      subst h'
      refine ⟨ha, hr, ?_⟩
      rcases hexit with h0 | hnone | ⟨i, hpn, hnone⟩
      · rw [pendingInv, h0] at hp
        intro st hmem
        have := (List.countP_eq_zero).mp hp.symm st hmem
        simpa using this
      · exact pickNext_noneAll _ _ hnone
      · obtain ⟨st, hget, _, _, _⟩ := pickNext_some _ _ i 0 hpn
        rw [hnone] at hget
        cases hget
    | next s2 =>
      rw [hstep] at h
      exact ih s2 sF h (batchStep_accs accounts oracle s s2 hstep ha)
        (batchStep_pending oracle s s2 hstep hp)
        (batchStep_results oracle s s2 hstep hr)

theorem initBatch_invs (accounts : List AccountIn) :
    accsInv accounts (initBatch accounts) ∧ pendingInv (initBatch accounts) ∧
      resultsInv (initBatch accounts) := by
  refine ⟨?_, ?_, ?_⟩
  · rw [accsInv, initBatch]
    dsimp only
    rw [List.map_map]
    induction accounts with
    | nil => rfl
    | cons x xs ihx => simp only [List.map_cons] at ihx ⊢; rw [ihx]; rfl
  · rw [pendingInv, initBatch]
    simp only [List.countP_map]
    induction accounts with
    | nil => simp
    | cons x xs ihx => simpa using ihx
  · rw [resultsInv, initBatch]
    simp only [List.map_nil]
    have hflt : (accounts.map (fun a =>
        (⟨a, 0, 0, 0, false⟩ : AccountState))).filter (fun st => st.finalized) = [] := by
      induction accounts with
      | nil => simp
      | cons x xs ihx => simp [ihx]
    rw [hflt]
    simp

theorem muMeasure_init (accounts : List AccountIn) :
    muMeasure (initBatch accounts) ≤ 18 * accounts.length + 2 := by
  have hphi : phiTotal (initBatch accounts) = 9 * accounts.length := by
    rw [phiTotal, initBatch]
    exact sumMapConst9 accounts
  rw [muMeasure, hphi]
  split_ifs <;> omega

theorem boundsInv_init (accounts : List AccountIn) : boundsInv (initBatch accounts) := by
  rw [boundsInv, initBatch]
  intro st hmem _
  simp only [List.mem_map] at hmem
  obtain ⟨a, _, hEq⟩ := hmem
  subst hEq
  exact ⟨by simp, by simp⟩

theorem runBatch40100_aux : ∀ (fuel : Nat) (s : BatchState), s.pending = 1 →
    (∃ st, s.states = [st] ∧ st.finalized = false) →
    runBatchAux oracle40100 fuel s = none := by
  intro fuel
  induction fuel with
  | zero => intro s _ _; rfl
  | succ n ih =>
    rintro s hp ⟨st, hs, hfin⟩
    simp only [runBatchAux]
    cases hstep : batchStep oracle40100 s with
    | done sF =>
      exfalso
      obtain ⟨_, hexit⟩ := batchStep_done_inv _ s sF hstep
      rcases hexit with h0 | hnone | ⟨i, hpn, hnone⟩
      · omega
      · have := pickNext_noneAll s.states s.now hnone st
          (by rw [hs]; exact List.mem_singleton.mpr rfl)
        rw [hfin] at this
        cases this
      · obtain ⟨st', hget, _, _, _⟩ := pickNext_some s.states s.now i 0 hpn
        rw [hnone] at hget
        cases hget
    | next s2 =>
      rcases (batchStep_next_inv _ s s2 hstep).2 with
        ⟨i, w, _, _, hst2, _, hp2, _, _⟩ |
        ⟨i, st', nowT, st2, res2, hpn, hget, hap, _, hst2, _, hp2, _, _⟩
      · exact ih s2 (by rw [hp2]; exact hp) ⟨st, by rw [hst2, hs], hfin⟩
      · rw [hs] at hget
        cases i with
        | zero =>
          rw [List.getElem?_cons_zero] at hget
          injection hget with hg
          subst hg
          have hcomp : applyOutcome st (oracle40100 s.k) nowT 0 =
              ({ st with attemptsInCycle := st.attemptsInCycle + 1, nextReadyAt := nowT + 3 }, none) := by
            rw [applyOutcome]
            norm_num [oracle40100]
          rw [hcomp] at hap
          injection hap with hap1 hap2
          refine ih s2 ?_ ⟨st2, ?_, ?_⟩
          · rw [hp2, ← hap1]
            simp [hfin, hp]
          · rw [hst2, hs, List.set_cons_zero]
          · rw [← hap1]
            simpa using hfin
        | succ m => simp at hget

/-- C2, counterexample: with a single account whose attempts always come
back with the captcha-issued-too-often code 40100, the `RedeemBatch`
scheduling loop never terminates — no amount of fuel makes it return.
The 40100 transition only bumps `attemptsInCycle` and re-schedules the
account 3 seconds later, so the account is never finalized; this refutes
the claim that such an account is "still eventually finalized". -/
theorem c2_counterexample :
    ¬ ∃ (fuel : Nat) (rs : List BatchRedeemResult),
      RedeemBatch oracle40100 [acct1] fuel = some rs := by
  rintro ⟨fuel, rs, h⟩
  rw [RedeemBatch, runBatch40100_aux fuel (initBatch [acct1]) rfl
    ⟨⟨acct1, 0, 0, 0, false⟩, rfl, rfl⟩] at h
  cases h

/-- C2, amended: for every finite list of accounts and every sequence of
classified attempt outcomes that never carries the captcha-issued-too-often
code 40100 (success, fatal, 40101 server-busy, 40102/40103 captcha
expired/incorrect, or any other code), the scheduling loop of `RedeemBatch`
terminates — `18·N + 3` iterations always suffice — and at loop exit every
account is finalized. An account with unboundedly many 40100 outcomes is
never finalized (see the counterexample). -/
theorem c2_batch_termination (accounts : List AccountIn) (oracle : Nat → RedeemOutcome)
    (hgood : ∀ k, goodOutcome (oracle k)) :
    ∃ sF, runBatchAux oracle (18 * accounts.length + 3) (initBatch accounts) = some sF ∧
      RedeemBatch oracle accounts (18 * accounts.length + 3) = some sF.results ∧
      ∀ st ∈ sF.states, st.finalized = true := by
  have hsome := runBatchAux_total oracle hgood (18 * accounts.length + 3) (initBatch accounts)
    (boundsInv_init accounts)
    (by have := muMeasure_init accounts; omega)
  obtain ⟨sF, hF⟩ := Option.isSome_iff_exists.mp hsome
  obtain ⟨ha, hp, hr⟩ := initBatch_invs accounts
  obtain ⟨_, _, hfinal⟩ := runBatchAux_props accounts oracle _ _ sF hF ha hp hr
  exact ⟨sF, hF, by rw [RedeemBatch, hF]; rfl, hfinal⟩

/-- Witness for the amended C2: one account, an always-successful outcome
stream; the loop terminates with the account finalized. -/
theorem c2_batch_termination_witness :
    ∃ sF, runBatchAux oracleSuccess (18 * [acct1].length + 3) (initBatch [acct1]) = some sF ∧
      RedeemBatch oracleSuccess [acct1] (18 * [acct1].length + 3) = some sF.results ∧
      ∀ st ∈ sF.states, st.finalized = true :=
  c2_batch_termination [acct1] oracleSuccess
    (fun k h => by rw [show (oracleSuccess k).success = true from rfl] at h; cases h)

/-- C10: whenever `RedeemBatch` returns, its result list contains exactly
one `BatchRedeemResult` per input account — the multiset of reported
account ids is a permutation of the input account ids, so no account is
dropped and none is reported twice. A result row is appended exactly when
an account's state becomes finalized, and the loop runs until no account
remains pending. -/
theorem c10_one_result_per_account (accounts : List AccountIn) (oracle : Nat → RedeemOutcome)
    (fuel : Nat) (rs : List BatchRedeemResult)
    (h : RedeemBatch oracle accounts fuel = some rs) :
    List.Perm (rs.map (fun r => r.accountId)) (accounts.map (fun a => a.id)) := by
  rw [RedeemBatch] at h
  cases hF : runBatchAux oracle fuel (initBatch accounts) with
  | none => rw [hF] at h; cases h
  | some sF =>
    rw [hF] at h
    injection h with h'
    subst h'
    obtain ⟨ha, hp, hr⟩ := initBatch_invs accounts
    obtain ⟨haF, hrF, hfinal⟩ := runBatchAux_props accounts oracle fuel _ sF hF ha hp hr
    rw [resultsInv] at hrF
    rw [List.filter_eq_self.mpr hfinal] at hrF
    refine hrF.trans ?_
    rw [accsInv] at haF
    rw [show (fun st : AccountState => st.acc.id) =
      (fun a : AccountIn => a.id) ∘ (fun st : AccountState => st.acc) from rfl]
    rw [← List.map_map, haF]

/-- Witness for C10: a concrete run with one account and an
always-successful outcome stream. -/
theorem c10_witness :
    ∃ rs, RedeemBatch oracleSuccess [acct1] 21 = some rs ∧
      List.Perm (rs.map (fun r => r.accountId)) ([acct1].map (fun a => a.id)) := by
  refine ⟨(RedeemBatch oracleSuccess [acct1] 21).get (by decide), ?_, ?_⟩
  · rfl
  · exact c10_one_result_per_account [acct1] oracleSuccess 21 _ rfl

/-- C3: in a `RedeemBatch` run, an account that starts a run of
server-busy (40101) outcomes with a fresh cooldown counter — the only way
three such attempts in a row can happen, since the counter only grows —
has each of the first two busy outcomes increment `cooldowns`, reset
`attemptsInCycle` and set `nextReadyAt` 60 seconds ahead, while the third
finalizes the account as failed (`result = "failed"`); and the scheduler
never again attempts a finalized account, since `pickNext` only ever
returns non-finalized indices. -/
theorem c3_server_busy_ceiling :
    (∀ (acc : AccountIn) (a t0 : Nat) (o1 o2 o3 : RedeemOutcome) (t1 t2 t3 p1 p2 p3 : Nat),
      o1.success = false → o1.isFatal = false → o1.errCode = 40101 →
      o2.success = false → o2.isFatal = false → o2.errCode = 40101 →
      o3.success = false → o3.isFatal = false → o3.errCode = 40101 →
      applyOutcome ⟨acc, 0, a, t0, false⟩ o1 t1 p1 = (⟨acc, 1, 0, t1 + 60, false⟩, none) ∧
      applyOutcome ⟨acc, 1, 0, t1 + 60, false⟩ o2 t2 p2 = (⟨acc, 2, 0, t2 + 60, false⟩, none) ∧
      applyOutcome ⟨acc, 2, 0, t2 + 60, false⟩ o3 t3 p3 =
        (⟨acc, 3, 0, t2 + 60, true⟩, some (mkTmp ⟨acc, 2, 0, t2 + 60, false⟩ o3 p3)) ∧
      (mkTmp ⟨acc, 2, 0, t2 + 60, false⟩ o3 p3).result = "failed") ∧
    (∀ (states : List AccountState) (now i w : Nat) (st : AccountState),
      pickNext states now = some (i, w) → states[i]? = some st → st.finalized = false) := by
  constructor
  · intro acc a t0 o1 o2 o3 t1 t2 t3 p1 p2 p3 h1s h1f h1c h2s h2f h2c h3s h3f h3c
    refine ⟨?_, ?_, ?_, rfl⟩
    · rw [applyOutcome]
      norm_num [h1s, h1f, h1c]
    · rw [applyOutcome]
      norm_num [h2s, h2f, h2c]
    · rw [applyOutcome]
      norm_num [h3s, h3f, h3c]
  · intro states now i w st hpn hget
    obtain ⟨st', hget', hfin', _, _⟩ := pickNext_some states now i w hpn
    rw [hget] at hget'
    injection hget' with h'
    rw [← h'] at hfin'
    exact hfin'

/-- Witness for C3: concrete account, three concrete server-busy outcomes
at times 5, 70 and 135. -/
theorem c3_witness :
    applyOutcome ⟨acct1, 0, 0, 0, false⟩
        ⟨false, 40101, false, "服务器繁忙", "", "redeem"⟩ 5 1 =
      (⟨acct1, 1, 0, 65, false⟩, none) ∧
    applyOutcome ⟨acct1, 1, 0, 65, false⟩
        ⟨false, 40101, false, "服务器繁忙", "", "redeem"⟩ 70 1 =
      (⟨acct1, 2, 0, 130, false⟩, none) ∧
    applyOutcome ⟨acct1, 2, 0, 130, false⟩
        ⟨false, 40101, false, "服务器繁忙", "", "redeem"⟩ 135 1 =
      (⟨acct1, 3, 0, 130, true⟩,
        some (mkTmp ⟨acct1, 2, 0, 130, false⟩ ⟨false, 40101, false, "服务器繁忙", "", "redeem"⟩ 1)) ∧
    (mkTmp ⟨acct1, 2, 0, 130, false⟩ ⟨false, 40101, false, "服务器繁忙", "", "redeem"⟩ 1).result =
      "failed" := by
  have h := c3_server_busy_ceiling.1 acct1 0 0
    ⟨false, 40101, false, "服务器繁忙", "", "redeem"⟩
    ⟨false, 40101, false, "服务器繁忙", "", "redeem"⟩
    ⟨false, 40101, false, "服务器繁忙", "", "redeem"⟩
    5 70 135 1 1 1 rfl rfl rfl rfl rfl rfl rfl rfl rfl
  exact h

/-- C4: in `RedeemBatch`, a captcha-expired/incorrect outcome
(40102/40103) increments `attemptsInCycle`; if the incremented counter is
still below 3 the account is re-scheduled 3 seconds later; when it
reaches 3 it folds into a cooldown — `cooldownCount` is incremented,
`attemptsInCycle` reset, and the same ceiling-of-3 finalize-as-failed
logic as for server-busy applies, otherwise `nextReadyAt = now + 60`. -/
theorem c4_captcha_retry_escalation (st : AccountState) (o : RedeemOutcome) (t p : Nat)
    (hS : o.success = false) (hF : o.isFatal = false)
    (hc : o.errCode = 40102 ∨ o.errCode = 40103) :
    (st.attemptsInCycle + 1 < 3 →
      applyOutcome st o t p =
        ({ st with attemptsInCycle := st.attemptsInCycle + 1, nextReadyAt := t + 3 }, none)) ∧
    (3 ≤ st.attemptsInCycle + 1 → st.cooldowns + 1 < 3 →
      applyOutcome st o t p =
        ({ st with
          cooldowns := st.cooldowns + 1,
          attemptsInCycle := 0,
          nextReadyAt := t + 60 }, none)) ∧
    (3 ≤ st.attemptsInCycle + 1 → 3 ≤ st.cooldowns + 1 →
      applyOutcome st o t p =
        ({ st with cooldowns := st.cooldowns + 1, attemptsInCycle := 0, finalized := true },
          some (mkTmp st o p)) ∧ (mkTmp st o p).result = "failed") := by
  have hne : o.errCode ≠ 40101 := by rcases hc with h | h <;> rw [h] <;> norm_num
  refine ⟨fun ha => ?_, fun ha hcc => ?_, fun ha hcc => ⟨?_, rfl⟩⟩
  · have ha' : ¬ 3 ≤ st.attemptsInCycle + 1 := by omega
    rw [applyOutcome]
    simp [hS, hF, hne, hc, ha']
  · have hcc' : ¬ 3 ≤ st.cooldowns + 1 := by omega
    rw [applyOutcome]
    simp [hS, hF, hne, hc, ha, hcc']
  · rw [applyOutcome]
    simp [hS, hF, hne, hc, ha, hcc]

/-- Witness for C4: all three cases exercised at concrete states with a
concrete captcha-incorrect outcome. -/
theorem c4_witness :
    applyOutcome ⟨acct1, 0, 0, 0, false⟩
        ⟨false, 40103, false, "验证码错误", "ABCD", "redeem"⟩ 9 1 =
      (⟨acct1, 0, 1, 12, false⟩, none) ∧
    applyOutcome ⟨acct1, 0, 2, 0, false⟩
        ⟨false, 40103, false, "验证码错误", "ABCD", "redeem"⟩ 9 1 =
      (⟨acct1, 1, 0, 69, false⟩, none) ∧
    applyOutcome ⟨acct1, 2, 2, 0, false⟩
        ⟨false, 40103, false, "验证码错误", "ABCD", "redeem"⟩ 9 1 =
      (⟨acct1, 3, 0, 0, true⟩,
        some (mkTmp ⟨acct1, 2, 2, 0, false⟩
          ⟨false, 40103, false, "验证码错误", "ABCD", "redeem"⟩ 1)) := by
  refine ⟨?_, ?_, ?_⟩
  · have h := (c4_captcha_retry_escalation ⟨acct1, 0, 0, 0, false⟩
      ⟨false, 40103, false, "验证码错误", "ABCD", "redeem"⟩ 9 1 rfl rfl (Or.inr rfl)).1
      (by norm_num)
    exact h
  · have h := (c4_captcha_retry_escalation ⟨acct1, 0, 2, 0, false⟩
      ⟨false, 40103, false, "验证码错误", "ABCD", "redeem"⟩ 9 1 rfl rfl (Or.inr rfl)).2.1
      (by norm_num) (by norm_num)
    exact h
  · have h := (c4_captcha_retry_escalation ⟨acct1, 2, 2, 0, false⟩
      ⟨false, 40103, false, "验证码错误", "ABCD", "redeem"⟩ 9 1 rfl rfl (Or.inr rfl)).2.2
      (by norm_num) (by norm_num)
    exact h.1

/-- C5: `isFatalError` holds exactly for the fatal business codes 40007
(gift code expired) and 40014 (gift code does not exist); in
`RedeemBatch`, an attempt outcome flagged fatal finalizes the account as
failed immediately, whatever its remaining cooldown and short-retry
budget; a normalized `tryOnceNoCooldown` outcome whose redeem call failed
with one of those codes is flagged fatal and carries the code; and the
scheduler never attempts a finalized account again. -/
theorem c5_fatal_short_circuit :
    (∀ c : Int, isFatalError c = true ↔ c = 40007 ∨ c = 40014) ∧
    (∀ (st : AccountState) (o : RedeemOutcome) (t p : Nat),
      o.success = false → o.isFatal = true →
      applyOutcome st o t p = ({ st with finalized := true }, some (mkTmp st o p)) ∧
      (mkTmp st o p).result = "failed") ∧
    (∀ (h : HttpOutcome) (lr cr : GameResult) (raw : String),
      lr.success = true → cr.success = true → raw ≠ "" → (normalize4 raw).length = 4 →
      (RedeemCode h).success = false →
      ((RedeemCode h).errCode = 40007 ∨ (RedeemCode h).errCode = 40014) →
      (tryOnceNoCooldown (some lr) (some cr) (some raw) (some (RedeemCode h))).isFatal = true ∧
      (tryOnceNoCooldown (some lr) (some cr) (some raw) (some (RedeemCode h))).errCode =
        (RedeemCode h).errCode) ∧
    (∀ (states : List AccountState) (now i w : Nat) (st : AccountState),
      pickNext states now = some (i, w) → states[i]? = some st → st.finalized = false) := by
  refine ⟨?_, ?_, ?_, ?_⟩
  · intro c
    simp [isFatalError]
  · intro st o t p hS hF
    refine ⟨?_, rfl⟩
    rw [applyOutcome]
    simp [hS, hF]
  · intro h lr cr raw hlr hcr hraw hlen hfail hcode
    have hfatal : (RedeemCode h).isFatal = true := by
      have hmap : (RedeemCode h).isFatal = isFatalError (RedeemCode h).errCode := by
        cases h with
        | netError m => rfl
        | resp status body =>
          cases body with
          | readError => rfl
          | undecodable => rfl
          | decoded r =>
            rw [RedeemCode]
            dsimp only
            by_cases hst : status ≠ 200
            · rw [if_pos hst]; rfl
            · rw [if_neg hst]
              by_cases hsucc : isSuccess (parseErrCode r.errCode) = true
              · rw [RedeemCode] at hfail
                dsimp only at hfail
                rw [if_neg hst, if_pos hsucc] at hfail
                simp at hfail
              · rw [if_neg hsucc]
      rw [hmap]
      rcases hcode with hcode | hcode <;> rw [hcode] <;> rfl
    have hbusy : ¬(RedeemCode h).errCode = 40101 := by
      rcases hcode with hcode | hcode <;> rw [hcode] <;> norm_num
    have hcap : ¬((RedeemCode h).errCode = 40102 ∨ (RedeemCode h).errCode = 40103) := by
      rcases hcode with hcode | hcode <;> rw [hcode] <;> norm_num
    constructor <;>
      simp [tryOnceNoCooldown, hlr, hcr, hraw, hlen, hfail, hbusy, hcap, hfatal]
  · intro states now i w st hpn hget
    obtain ⟨st', hget', hfin', _, _⟩ := pickNext_some states now i w hpn
    rw [hget] at hget'
    injection hget' with h'
    rw [← h'] at hfin'
    exact hfin'

/-- Witness for C5: a fatal outcome (gift code expired, 40007) finalizes
an account that still had cooldown budget left, on this very attempt; and
a concrete redeem response with code 40007 yields a fatal normalized
outcome from `tryOnceNoCooldown`. -/
theorem c5_witness :
    (applyOutcome ⟨acct1, 2, 2, 0, false⟩
        ⟨false, 40007, true, "兑换码已过期", "ABCD", "redeem"⟩ 3 1 =
      (⟨acct1, 2, 2, 0, true⟩,
        some (mkTmp ⟨acct1, 2, 2, 0, false⟩
          ⟨false, 40007, true, "兑换码已过期", "ABCD", "redeem"⟩ 1)) ∧
      (mkTmp ⟨acct1, 2, 2, 0, false⟩
        ⟨false, 40007, true, "兑换码已过期", "ABCD", "redeem"⟩ 1).result = "failed") ∧
    (tryOnceNoCooldown (some ⟨true, GameData.zero, "", 0, false⟩)
        (some ⟨true, GameData.zero, "", 0, false⟩) (some "abcd")
        (some (RedeemCode (.resp 200 (.decoded ⟨1, .num 40007, "", GameData.zero⟩))))).isFatal =
      true := by
  constructor
  · exact c5_fatal_short_circuit.2.1 ⟨acct1, 2, 2, 0, false⟩
      ⟨false, 40007, true, "兑换码已过期", "ABCD", "redeem"⟩ 3 1 rfl rfl
  · exact (c5_fatal_short_circuit.2.2.1
      (.resp 200 (.decoded ⟨1, .num 40007, "", GameData.zero⟩))
      ⟨true, GameData.zero, "", 0, false⟩ ⟨true, GameData.zero, "", 0, false⟩ "abcd"
      rfl rfl (by decide) (by decide) (by decide) (Or.inl (by decide))).1

/-- C6, counterexample: a network error on the HTTP round-trip
(`client.Do` fails) does NOT produce the server-busy code 40101 — the
returned result has no error code at all (the Go zero value 0), from each
of `Login`, `GetCaptcha` and `RedeemCode`. -/
theorem c6_counterexample :
    (Login (.netError "connection refused")).errCode = 0 ∧
    (GetCaptcha (.netError "connection refused")).errCode = 0 ∧
    (RedeemCode (.netError "connection refused")).errCode = 0 ∧
    (0 : Int) ≠ 40101 := by
  refine ⟨rfl, rfl, rfl, by norm_num⟩

/-- C6, amended: the body-level failures of a game-API call — a non-200
HTTP status, an unreadable response body, or an undecodable body — are
classified as the generic server-busy retryable condition (error code
40101, `服务器繁忙`) by each of `Login`, `GetCaptcha` and `RedeemCode`;
a network error on the HTTP round-trip itself instead yields a failed
result carrying the raw error text and error code 0 (unclassified). -/
theorem c6_transport_classification :
    (∀ s : Int, s ≠ 200 → ∀ r : GameResponse,
      Login (.resp s (.decoded r)) = serverBusyResult ∧
      GetCaptcha (.resp s (.decoded r)) = serverBusyResult ∧
      RedeemCode (.resp s (.decoded r)) = serverBusyResult) ∧
    (∀ s : Int,
      Login (.resp s .readError) = serverBusyResult ∧
      GetCaptcha (.resp s .readError) = serverBusyResult ∧
      RedeemCode (.resp s .readError) = serverBusyResult ∧
      Login (.resp s .undecodable) = serverBusyResult ∧
      GetCaptcha (.resp s .undecodable) = serverBusyResult ∧
      RedeemCode (.resp s .undecodable) = serverBusyResult) ∧
    (serverBusyResult.errCode = 40101 ∧ serverBusyResult.success = false) ∧
    (∀ m : String,
      Login (.netError m) =
        { success := false, data := GameData.zero, error := m, errCode := 0, isFatal := false } ∧
      GetCaptcha (.netError m) =
        { success := false, data := GameData.zero, error := m, errCode := 0, isFatal := false } ∧
      RedeemCode (.netError m) =
        { success := false, data := GameData.zero, error := m, errCode := 0, isFatal := false }) := by
  refine ⟨?_, ?_, ⟨rfl, rfl⟩, ?_⟩
  · intro s hs r
    refine ⟨?_, ?_, ?_⟩
    · rw [Login]; dsimp only; rw [if_pos hs]
    · rw [GetCaptcha]; dsimp only; rw [if_pos hs]
    · rw [RedeemCode]; dsimp only; rw [if_pos hs]
  · intro s
    exact ⟨rfl, rfl, rfl, rfl, rfl, rfl⟩
  · intro m
    exact ⟨rfl, rfl, rfl⟩

/-- Witness for the amended C6: HTTP status 500 with a decodable body is
classified as 40101 by all three calls. -/
theorem c6_witness :
    Login (.resp 500 (.decoded ⟨0, .null, "", GameData.zero⟩)) = serverBusyResult ∧
    GetCaptcha (.resp 500 (.decoded ⟨0, .null, "", GameData.zero⟩)) = serverBusyResult ∧
    RedeemCode (.resp 500 (.decoded ⟨0, .null, "", GameData.zero⟩)) = serverBusyResult :=
  c6_transport_classification.1 500 (by norm_num) ⟨0, .null, "", GameData.zero⟩

/-- C7: evaluation of `RetryJob` around the 64-bit overflow. For retries
up to 33 the computed delay equals `min(2^retries s, 60s)` (in
nanoseconds) and is non-decreasing, and the at-ceiling/below-ceiling
branches behave as specified; but at `retries = 34` — a value still below
a permissible `max_retries` — the Go expression
`time.Duration(1 << retries) * time.Second` overflows int64, the delay
becomes negative (`2^34·10^9 − 2^64` ns), the 60-second cap comparison
does not fire, and `next_run_at` is set in the past instead of
`now + 60s`, contradicting the code's own comment
`指数退避策略（1s, 2s, 4s, 8s...最大60s）`. -/
theorem c7_retry_overflow :
    retryDelayNs 34 = 17179869184000000000 - 18446744073709551616 ∧
    retryDelayNs 34 < 0 ∧
    retryDelayNs 34 ≠ 60 * 1000000000 ∧
    (RetryJob ⟨1, 34, 100, "processing", 0, ""⟩ "boom" 0).nextRunAt < 0 ∧
    (RetryJob ⟨1, 34, 100, "processing", 0, ""⟩ "boom" 0).status = "pending" ∧
    (RetryJob ⟨1, 34, 100, "processing", 0, ""⟩ "boom" 0).retries = 35 ∧
    (∀ r : Fin 34, retryDelayNs r.val = min (2 ^ r.val) 60 * 1000000000) ∧
    (∀ r : Fin 33, retryDelayNs r.val ≤ retryDelayNs (r.val + 1)) ∧
    (RetryJob ⟨1, 3, 3, "processing", 0, ""⟩ "boom" 0).status = "failed" ∧
    (RetryJob ⟨1, 3, 3, "processing", 0, ""⟩ "boom" 0).errorMessage = "达到最大重试次数: boom" ∧
    (RetryJob ⟨1, 2, 3, "processing", 0, ""⟩ "boom" 7).nextRunAt = 7 + 4 * 1000000000 ∧
    (RetryJob ⟨1, 2, 3, "processing", 0, ""⟩ "boom" 7).retries = 3 ∧
    (RetryJob ⟨1, 2, 3, "processing", 0, ""⟩ "boom" 7).status = "pending" := by
  decide

/-- C9: `ReplaceRedeemLog` is an idempotent upsert per (code, account)
pair — calling it twice in succession for the same pair leaves exactly
one `redeem_logs` row for that pair, carrying the second call's data, and
from any prior table state one successful call removes every earlier row
of the pair, inserts exactly one new row, and leaves rows of other pairs
in place. -/
theorem c9_replace_idempotent :
    (∀ (table : List RedeemLogRow) (r1 r2 : RedeemLogRow),
      r1.redeemCodeId = r2.redeemCodeId → r1.gameAccountId = r2.gameAccountId →
      (ReplaceRedeemLog (ReplaceRedeemLog table r1) r2).filter
        (rowMatches r2.redeemCodeId r2.gameAccountId) = [r2]) ∧
    (∀ (table : List RedeemLogRow) (r : RedeemLogRow),
      (ReplaceRedeemLog table r).filter (rowMatches r.redeemCodeId r.gameAccountId) = [r] ∧
      (ReplaceRedeemLog table r).countP (rowMatches r.redeemCodeId r.gameAccountId) = 1 ∧
      ∀ row ∈ table, rowMatches r.redeemCodeId r.gameAccountId row = false →
        row ∈ ReplaceRedeemLog table r) := by
  have hfilter : ∀ (t : List RedeemLogRow) (r : RedeemLogRow),
      (ReplaceRedeemLog t r).filter (rowMatches r.redeemCodeId r.gameAccountId) = [r] := by
    intro t r
    rw [ReplaceRedeemLog, List.filter_append]
    have h1 : (t.filter (fun x => !rowMatches r.redeemCodeId r.gameAccountId x)).filter
        (rowMatches r.redeemCodeId r.gameAccountId) = [] := by
      induction t with
      | nil => rfl
      | cons x xs ihx =>
        by_cases hx : rowMatches r.redeemCodeId r.gameAccountId x
        · simp [List.filter_cons, hx, ihx]
        · simp only [Bool.not_eq_true] at hx
          simp [List.filter_cons, hx, ihx]
    have h2 : rowMatches r.redeemCodeId r.gameAccountId r = true := by
      simp [rowMatches]
    rw [h1]
    simp [h2]
  refine ⟨?_, ?_⟩
  · intro table r1 r2 _ _
    exact hfilter (ReplaceRedeemLog table r1) r2
  · intro table r
    refine ⟨hfilter table r, ?_, ?_⟩
    · rw [List.countP_eq_length_filter, hfilter table r]
      rfl
    · intro row hmem hrow
      rw [ReplaceRedeemLog]
      refine List.mem_append.mpr (Or.inl ?_)
      rw [List.mem_filter]
      exact ⟨hmem, by rw [hrow]; rfl⟩

/-- Witness for C9: a failed row for pair (1,2) replaced by a success row
for the same pair leaves exactly that success row for the pair. -/
theorem c9_witness :
    (ReplaceRedeemLog
        (ReplaceRedeemLog [⟨1, 2, "f1", "CODE", "failed", none, none, none, none, none⟩]
          ⟨1, 2, "f1", "CODE", "failed", some "err", none, none, some 3, some 40101⟩)
        ⟨1, 2, "f1", "CODE", "success", none, some "ok", some "ABCD", some 5, none⟩).filter
      (rowMatches 1 2) =
    [⟨1, 2, "f1", "CODE", "success", none, some "ok", some "ABCD", some 5, none⟩] :=
  c9_replace_idempotent.1 _
    ⟨1, 2, "f1", "CODE", "failed", some "err", none, none, some 3, some 40101⟩
    ⟨1, 2, "f1", "CODE", "success", none, some "ok", some "ABCD", some 5, none⟩ rfl rfl

/-- C8, counterexample. First, `Reload` does not retain exactly the keys
with `isActive ∧ hasQuota ∧ weight > 0`: a key satisfying all three whose
provider is not registered is dropped. Second, a `pick` step does not add
the effective weight to the accumulators: it adds the BASE weight
(`wk.key.Weight`, ocr_manager.go:99) while only `total` uses effective
weights, so the key chosen by the code differs from the key the claim's
dynamics would choose: with a weight-2 key at full quota (effective
weight 4) and a weight-3 key without quota data (effective weight 3), the
code picks key 2 first while the claimed dynamics picks key 1. -/
theorem c8_counterexample :
    (keyUnregistered.isActive = true ∧ keyUnregistered.hasQuota = true ∧
      0 < keyUnregistered.weight ∧ (Reload builtinProviders [keyUnregistered]).keys = []) ∧
    ((pick (Reload builtinProviders [keyFullQuota, keyNoQuotaInfo])).map (fun p => p.1.key.id) =
        some 2 ∧
      (pickSpecWorded (Reload builtinProviders [keyFullQuota, keyNoQuotaInfo])).map
        (fun p => p.1.key.id) = some 1 ∧
      (2 : Int) ≠ 1) := by
  have hA : effWeight keyFullQuota = 4 := by norm_num [effWeight, keyFullQuota]
  have hB : effWeight keyNoQuotaInfo = 3 := by norm_num [effWeight, keyNoQuotaInfo]
  have hm : Reload builtinProviders [keyFullQuota, keyNoQuotaInfo] =
      (⟨[⟨keyFullQuota, 0⟩, ⟨keyNoQuotaInfo, 0⟩], 7⟩ : OCRKeyManager) := by
    rw [Reload]
    have hflt : [keyFullQuota, keyNoQuotaInfo].filter (keyRetained builtinProviders) =
        [keyFullQuota, keyNoQuotaInfo] := by decide
    rw [hflt]
    simp only [List.map_cons, List.map_nil, List.sum_cons, List.sum_nil, hA, hB]
    norm_num
  refine ⟨⟨rfl, rfl, by decide, by decide⟩, ?_, ?_, by norm_num⟩
  · rw [hm]; decide
  · rw [hm, pickSpecWorded]
    simp only [List.map_cons, List.map_nil, hA, hB]
    decide

theorem pickBestAux_spec :
    ∀ (l : List WeightedKey) (i bi : Nat) (bc : Int),
      (pickBestAux l i bi bc = bi ∧ ∀ wk ∈ l, wk.current ≤ bc) ∨
      (∃ d wk, l[d]? = some wk ∧ pickBestAux l i bi bc = i + d ∧ bc < wk.current ∧
        ∀ wk2 ∈ l, wk2.current ≤ wk.current) := by
  intro l
  induction l with
  | nil => intro i bi bc; exact Or.inl ⟨rfl, by simp⟩
  | cons wk l ihl =>
    intro i bi bc
    by_cases h : bc < wk.current
    · rcases ihl (i + 1) i wk.current with ⟨hres, hall⟩ | ⟨d, wk', hgd, hres, hlt, hall⟩
      · refine Or.inr ⟨0, wk, by simp, ?_, h, ?_⟩
        · simp only [pickBestAux]
          rw [if_pos h, hres]
          omega
        · intro wk2 hmem
          rcases List.mem_cons.mp hmem with h2 | h2
          · rw [h2]
          · exact hall wk2 h2
      · refine Or.inr ⟨d + 1, wk', by simpa using hgd, ?_, lt_trans h hlt, ?_⟩
        · simp only [pickBestAux]
          rw [if_pos h, hres]
          omega
        · intro wk2 hmem
          rcases List.mem_cons.mp hmem with h2 | h2
          · rw [h2]; exact le_of_lt hlt
          · exact hall wk2 h2
    · rcases ihl (i + 1) bi bc with ⟨hres, hall⟩ | ⟨d, wk', hgd, hres, hlt, hall⟩
      · refine Or.inl ⟨?_, ?_⟩
        · simp only [pickBestAux]
          rw [if_neg h, hres]
        · intro wk2 hmem
          rcases List.mem_cons.mp hmem with h2 | h2
          · rw [h2]; exact le_of_not_lt h
          · exact hall wk2 h2
      · refine Or.inr ⟨d + 1, wk', by simpa using hgd, ?_, hlt, ?_⟩
        · simp only [pickBestAux]
          rw [if_neg h, hres]
          omega
        · intro wk2 hmem
          rcases List.mem_cons.mp hmem with h2 | h2
          · rw [h2]; exact le_trans (le_of_not_lt h) (le_of_lt hlt)
          · exact hall wk2 h2

theorem pickBest_max (l : List WeightedKey) (j : Nat) (h : pickBest l = some j) :
    ∃ best, l[j]? = some best ∧ ∀ wk ∈ l, wk.current ≤ best.current := by
  cases l with
  | nil => cases h
  | cons w0 rest =>
    rw [pickBest] at h
    injection h with hj
    rcases pickBestAux_spec rest 1 0 w0.current with ⟨hres, hall⟩ | ⟨d, wk', hgd, hres, hlt, hall⟩
    · rw [hres] at hj
      subst hj
      refine ⟨w0, by simp, ?_⟩
      intro wk hmem
      rcases List.mem_cons.mp hmem with h2 | h2
      · rw [h2]
      · exact hall wk h2
    · rw [hres] at hj
      subst hj
      refine ⟨wk', ?_, ?_⟩
      · rw [show 1 + d = d + 1 by omega]
        simpa using hgd
      · intro wk hmem
        rcases List.mem_cons.mp hmem with h2 | h2
        · rw [h2]; exact le_of_lt hlt
        · exact hall wk h2

theorem effWeight_bounds (k : OCRKey) (hw : 0 < k.weight) :
    k.weight ≤ effWeight k ∧ effWeight k ≤ 2 * k.weight := by
  rw [effWeight]
  by_cases hq : 0 < k.monthlyQuota ∧ 0 ≤ k.remainingQuota
  · rw [if_pos hq]
    dsimp only
    set eff : ℚ := min 2 (1 + (k.remainingQuota : ℚ) / (k.monthlyQuota : ℚ)) with heff
    have h1 : (1 : ℚ) ≤ eff := by
      rw [heff]
      refine le_min (by norm_num) ?_
      have hdiv : (0 : ℚ) ≤ (k.remainingQuota : ℚ) / (k.monthlyQuota : ℚ) :=
        div_nonneg (by exact_mod_cast hq.2) (le_of_lt (by exact_mod_cast hq.1))
      linarith
    have h2 : eff ≤ 2 := min_le_left _ _
    have hwq : (0 : ℚ) ≤ (k.weight : ℚ) := by exact_mod_cast le_of_lt hw
    have hlow : k.weight ≤ ⌊(k.weight : ℚ) * eff⌋ := by
      have hmul : ((k.weight : Int) : ℚ) ≤ (k.weight : ℚ) * eff := by nlinarith
      calc (k.weight : Int) = ⌊((k.weight : Int) : ℚ)⌋ := (Int.floor_intCast _).symm
        _ ≤ ⌊(k.weight : ℚ) * eff⌋ := Int.floor_le_floor hmul
    have hhigh : ⌊(k.weight : ℚ) * eff⌋ ≤ 2 * k.weight := by
      have hmul : (k.weight : ℚ) * eff ≤ ((2 * k.weight : Int) : ℚ) := by
        push_cast
        nlinarith
      calc ⌊(k.weight : ℚ) * eff⌋ ≤ ⌊((2 * k.weight : Int) : ℚ)⌋ := Int.floor_le_floor hmul
        _ = 2 * k.weight := Int.floor_intCast _
    rw [if_neg (by omega)]
    exact ⟨hlow, hhigh⟩
  · rw [if_neg hq]
    exact ⟨le_refl _, by omega⟩

/-- C8, amended: `Reload` retains exactly the keys satisfying
`isActive ∧ hasQuota ∧ weight > 0` AND whose normalized provider is
registered, resetting every accumulator to 0; each retained key's
effective weight scales its base weight up by at most 2× (and at least
1×) in proportion to its remaining-quota fraction, and `total` is the sum
of the retained effective weights. Each selection step of `pick` then
increases every key's accumulator by its BASE weight (not the effective
weight), chooses the key with the highest accumulator (first wins ties),
and subtracts the total (effective) weight from the chosen key's
accumulator. -/
theorem c8_reload_pick :
    (∀ (registry : List String) (keys : List OCRKey),
      (Reload registry keys).keys.map (fun wk => wk.key) =
        keys.filter (fun k => k.isActive && k.hasQuota && decide (0 < k.weight) &&
          registry.contains (normalizeProvider k.provider)) ∧
      (∀ wk ∈ (Reload registry keys).keys, wk.current = 0) ∧
      (Reload registry keys).total =
        ((keys.filter (keyRetained registry)).map effWeight).sum) ∧
    (∀ k : OCRKey, 0 < k.weight → k.weight ≤ effWeight k ∧ effWeight k ≤ 2 * k.weight) ∧
    (∀ keys : List WeightedKey,
      bump keys = keys.map (fun wk => ⟨wk.key, wk.current + wk.key.weight⟩)) ∧
    (∀ (m : OCRKeyManager), m.keys ≠ [] →
      ∃ j best, pickBest (bump m.keys) = some j ∧ (bump m.keys)[j]? = some best) ∧
    (∀ (m : OCRKeyManager) (j : Nat) (best : WeightedKey),
      pickBest (bump m.keys) = some j → (bump m.keys)[j]? = some best →
      pick m = some (⟨best.key, best.current - m.total⟩,
        ⟨(bump m.keys).set j ⟨best.key, best.current - m.total⟩, m.total⟩) ∧
      ∀ wk ∈ bump m.keys, wk.current ≤ best.current) := by
  refine ⟨?_, ?_, ?_, ?_, ?_⟩
  · intro registry keys
    refine ⟨?_, ?_, rfl⟩
    · rw [Reload]
      dsimp only
      rw [List.map_map]
      show List.map (fun k => k) _ = _
      rw [List.map_id']
      rfl
    · intro wk hmem
      rw [Reload] at hmem
      dsimp only at hmem
      rw [List.mem_map] at hmem
      obtain ⟨k, _, hEq⟩ := hmem
      rw [← hEq]
  · exact effWeight_bounds
  · intro keys; rfl
  · intro m hne
    cases hb : bump m.keys with
    | nil =>
      exfalso
      apply hne
      cases hk : m.keys with
      | nil => rfl
      | cons x xs => rw [bump, hk] at hb; cases hb
    | cons w0 rest =>
      have hpb : pickBest (w0 :: rest) = some (pickBestAux rest 1 0 w0.current) := by
        simp only [pickBest]
      obtain ⟨best, hbest, _⟩ := pickBest_max (w0 :: rest) _ hpb
      exact ⟨_, best, hpb, hbest⟩
  · intro m j best hj hbest
    constructor
    · rw [pick]
      dsimp only
      rw [hj]
      dsimp only
      rw [hbest]
    · obtain ⟨best', hbest', hall⟩ := pickBest_max (bump m.keys) j hj
      rw [hbest] at hbest'
      injection hbest' with hEq
      rw [hEq]
      exact hall

/-- Witness for the amended C8: the concrete two-key balancer — base
weights 2 and 3, effective weights 4 and 3, total 7; the first `pick`
bumps the accumulators by the base weights (to 2 and 3), chooses key 2
and leaves it with accumulator 3 − 7 = −4; and the effective-weight
bounds hold for the full-quota key. -/
theorem c8_witness :
    pick (⟨[⟨keyFullQuota, 0⟩, ⟨keyNoQuotaInfo, 0⟩], 7⟩ : OCRKeyManager) =
      some (⟨keyNoQuotaInfo, 3 - 7⟩,
        ⟨[⟨keyFullQuota, 2⟩, ⟨keyNoQuotaInfo, 3 - 7⟩], 7⟩) ∧
    keyFullQuota.weight ≤ effWeight keyFullQuota ∧
    effWeight keyFullQuota ≤ 2 * keyFullQuota.weight := by
  constructor
  · have h := (c8_reload_pick.2.2.2.2
      (⟨[⟨keyFullQuota, 0⟩, ⟨keyNoQuotaInfo, 0⟩], 7⟩ : OCRKeyManager) 1 ⟨keyNoQuotaInfo, 3⟩
      (by decide) (by decide)).1
    exact h.trans (by decide)
  · exact c8_reload_pick.2.1 keyFullQuota (by decide)

theorem captchaBody_succ (n : Nat) :
    captchaBody (n + 1) = FlowOp.beginCaptcha :: FlowOp.endCaptcha :: captchaBody n := by
  rw [captchaBody, captchaBody, List.replicate_succ, List.flatten_cons]
  rfl

theorem stepFlow_inv (c : TwoFlows) (b : Bool) (h : GateInv c) : GateInv (stepFlow c b) := by
  obtain ⟨⟨p1, hd1, ic1⟩, ⟨p2, hd2, ic2⟩, gate⟩ := c
  obtain ⟨h1, h2, hg1, hg2, hng⟩ := h
  dsimp only at h1 h2 hg1 hg2 hng
  cases b with
  | true =>
    rcases h1 with ⟨n, hp, hh, hic⟩ | ⟨n, hp, hh, hic⟩ | ⟨n, hp, hh, hic⟩ | ⟨hp, hh, hic⟩ <;>
      dsimp only at hp hh hic <;> subst hp <;> subst hh <;> subst hic
    · cases gate with
      | true => exact ⟨Or.inl ⟨n, rfl, rfl, rfl⟩, h2, hg1, hg2, hng⟩
      | false =>
        refine ⟨Or.inr (Or.inl ⟨n, rfl, rfl, rfl⟩), h2, fun _ => rfl, fun _ => rfl, ?_⟩
        rintro ⟨_, h'⟩
        exact Bool.noConfusion (hg2 h')
    · cases n with
      | zero =>
        refine ⟨Or.inr (Or.inr (Or.inr ⟨rfl, rfl, rfl⟩)), h2, fun h' => h', fun h' => ?_, ?_⟩
        · exact absurd ⟨rfl, h'⟩ hng
        · rintro ⟨h', _⟩
          exact Bool.noConfusion h'
      | succ k =>
        exact ⟨Or.inr (Or.inr (Or.inl ⟨k, rfl, rfl, rfl⟩)), h2, hg1, hg2, hng⟩
    · exact ⟨Or.inr (Or.inl ⟨n, rfl, rfl, rfl⟩), h2, hg1, hg2, hng⟩
    · exact ⟨Or.inr (Or.inr (Or.inr ⟨rfl, rfl, rfl⟩)), h2, hg1, hg2, hng⟩
  | false =>
    rcases h2 with ⟨n, hp, hh, hic⟩ | ⟨n, hp, hh, hic⟩ | ⟨n, hp, hh, hic⟩ | ⟨hp, hh, hic⟩ <;>
      dsimp only at hp hh hic <;> subst hp <;> subst hh <;> subst hic
    · cases gate with
      | true => exact ⟨h1, Or.inl ⟨n, rfl, rfl, rfl⟩, hg1, hg2, hng⟩
      | false =>
        refine ⟨h1, Or.inr (Or.inl ⟨n, rfl, rfl, rfl⟩), fun _ => rfl, fun _ => rfl, ?_⟩
        rintro ⟨h', _⟩
        exact Bool.noConfusion (hg1 h')
    · cases n with
      | zero =>
        refine ⟨h1, Or.inr (Or.inr (Or.inr ⟨rfl, rfl, rfl⟩)), fun h' => ?_, fun h' => h', ?_⟩
        · exact absurd ⟨h', rfl⟩ hng
        · rintro ⟨_, h'⟩
          exact Bool.noConfusion h'
      | succ k =>
        exact ⟨h1, Or.inr (Or.inr (Or.inl ⟨k, rfl, rfl, rfl⟩)), hg1, hg2, hng⟩
    · exact ⟨h1, Or.inr (Or.inl ⟨n, rfl, rfl, rfl⟩), hg1, hg2, hng⟩
    · exact ⟨h1, Or.inr (Or.inr (Or.inr ⟨rfl, rfl, rfl⟩)), hg1, hg2, hng⟩

theorem runFlows_inv (sched : List Bool) :
    ∀ c : TwoFlows, GateInv c → GateInv (runFlows c sched) := by
  induction sched with
  | nil => intro c h; exact h
  | cons b rest ih => intro c h; exact ih (stepFlow c b) (stepFlow_inv c b h)

theorem gateInv_no_overlap (c : TwoFlows) (h : GateInv c) : overlapped c = false := by
  obtain ⟨h1, h2, _, _, hng⟩ := h
  rw [overlapped]
  cases hic1 : c.t1.inCaptcha
  · rfl
  · cases hic2 : c.t2.inCaptcha
    · rfl
    · exfalso
      have hh1 : c.t1.holdsGate = true := by
        rcases h1 with ⟨n, _, _, hic⟩ | ⟨n, _, _, hic⟩ | ⟨n, _, hh, _⟩ | ⟨_, _, hic⟩
        · rw [hic] at hic1; cases hic1
        · rw [hic] at hic1; cases hic1
        · exact hh
        · rw [hic] at hic1; cases hic1
      have hh2 : c.t2.holdsGate = true := by
        rcases h2 with ⟨n, _, _, hic⟩ | ⟨n, _, _, hic⟩ | ⟨n, _, hh, _⟩ | ⟨_, _, hic⟩
        · rw [hic] at hic2; cases hic2
        · rw [hic] at hic2; cases hic2
        · exact hh
        · rw [hic] at hic2; cases hic2
      exact hng ⟨hh1, hh2⟩

/-- C1, counterexample: `RedeemBatch` (part_001:653-829) never touches
`accountRedeemGate` — neither does `tryOnceNoCooldown` nor any caller
(part_015:241, part_015:385) — so two concurrently started batch flows,
or a batch flow and a gate-protected `RedeemSingle` flow, can be inside
their captcha-bearing interactions at the same time: explicit
interleavings reach an overlapped state. This refutes the claim that
every entry into `RedeemBatch` first acquires the gate. -/
theorem c1_counterexample :
    overlapped (runFlows (initFlows (redeemBatchFlow 1) (redeemBatchFlow 1))
      [true, false]) = true ∧
    overlapped (runFlows (initFlows (redeemBatchFlow 1) (redeemSingleFlow 1))
      [true, false, false]) = true := by
  decide

/-- C1, amended: only the single-account flow (`RedeemSingle`,
part_001:185-186) acquires the process-wide single-slot gate
`accountRedeemGate` on entry and holds it for its whole
login→captcha→claim interaction, so for every pair of concurrently
started `RedeemSingle` flows, under every interleaving, their
captcha-bearing interactions never overlap; `RedeemBatch` performs its
attempts without the gate (its serialization relies on the worker pool's
forced single concurrency, outside this function). -/
theorem c1_gate_mutex (n m : Nat) (sched : List Bool) :
    overlapped (runFlows (initFlows (redeemSingleFlow n) (redeemSingleFlow m)) sched) = false := by
  apply gateInv_no_overlap
  apply runFlows_inv
  exact ⟨Or.inl ⟨n, rfl, rfl, rfl⟩, Or.inl ⟨m, rfl, rfl, rfl⟩,
    fun h => Bool.noConfusion h, fun h => Bool.noConfusion h,
    fun hc => Bool.noConfusion hc.1⟩
